import Mathlib

set_option autoImplicit false

/-!
# Verification of the ensemble-generation engine (`ensemble.py`)

Shallow embedding of the `ensemble` function of `src/ensemble.py`
(repository aekiss/ensemble).  Paths and text are modelled as lists of
characters (`Str`); the filesystem is an association list from paths to
entries; the Python function is translated step by step into pure Lean
functions threading the filesystem state, the accumulated result list
(`ensemble`), and the function-level `syncdir` variable explicitly.

External collaborators (git, `payu`, the scheduler) are modelled at their
interface boundary: a git clone copies the template's tree to the target
path, `payu setup` is an oracle supplying the realpath of the `work`
directory and creating the derived archive directory, and run dispatch is
recorded as a `(path, count)` pair instead of spawning a process.
-/

/-- Text: Python strings are modelled as lists of characters so that all
string operations are structurally recursive and kernel-reducible. -/
abbrev Str := List Char

/-- Coerce a Lean string literal into the `Str` model. -/
def S (s : String) : Str := s.data

/-- Digit characters for decimal printing (model of Python `str` on digits). -/
def digitChar (n : Nat) : Char :=
  match n with
  | 0 => '0' | 1 => '1' | 2 => '2' | 3 => '3' | 4 => '4'
  | 5 => '5' | 6 => '6' | 7 => '7' | 8 => '8' | _ => '9'

/-- Fueled decimal digits of a natural number (fuel keeps the recursion
structural so that closed terms reduce in the kernel). -/
def natDigits : Nat → Nat → Str
  | 0, _ => []
  | f + 1, n => if n < 10 then [digitChar n] else natDigits f (n / 10) ++ [digitChar (n % 10)]

/-- Model of Python `str()` on an integer. -/
def intToStr (i : Int) : Str :=
  match i with
  | Int.ofNat n => natDigits (n + 1) n
  | Int.negSucc m => '-' :: natDigits (m + 2) (m + 1)

/-- Model of `str.startswith` (and the prefix test of `glob` patterns). -/
def strStarts (p s : Str) : Bool := p.isPrefixOf s

/-- Model of Python `os.path.join` for two components (posixpath.join). -/
def pyJoin (a b : Str) : Str :=
  if strStarts (S "/") b then b
  else if a = [] then b
  else if a.getLast? = some '/' then a ++ b
  else a ++ S "/" ++ b

/-- Model of `os.path.dirname` (posixpath.dirname): everything before the
last slash, with trailing slashes stripped unless the head is all slashes. -/
def pyDirname (p : Str) : Str :=
  let tailLen := (p.reverse.takeWhile (fun c => c ≠ '/')).length
  let head := p.take (p.length - tailLen)
  if head = [] then []
  else if head.all (fun c => c = '/') then head
  else (head.reverse.dropWhile (fun c => c = '/')).reverse

/-- Model of `os.path.basename`: the part after the last slash. -/
def pyBasename (p : Str) : Str :=
  (p.reverse.takeWhile (fun c => c ≠ '/')).reverse

/-- Model of `os.path.relpath(p, base)` for the case used by the script
(`p` lies under `base`); the script only ever takes the basename of the
result, which this simplification preserves. -/
def pyRelpath (p base : Str) : Str :=
  if strStarts (base ++ S "/") p then p.drop (base.length + 1) else p

/-- Whitespace recognised by Python `str.strip`. -/
def pyIsSpace (c : Char) : Bool :=
  c = ' ' ∨ c = '\t' ∨ c = '\n' ∨ c = '\r'

/-- Model of `str.strip()`. -/
def pyStrip (s : Str) : Str :=
  ((s.dropWhile pyIsSpace).reverse.dropWhile pyIsSpace).reverse

/-- ASCII lower-casing of one character (model of `str.lower`). -/
def lowerChar (c : Char) : Char :=
  if 'A' ≤ c ∧ c ≤ 'Z' then Char.ofNat (c.toNat + 32) else c

/-- Model of `str.lower()` (ASCII, which covers the script's inputs). -/
def pyLower (s : Str) : Str := s.map lowerChar

/-- Model of `str.zfill(w)`: pad with zeros on the left, after any sign. -/
def pyZfill (s : Str) (w : Nat) : Str :=
  if w ≤ s.length then s
  else
    match s with
    | c :: rest =>
      if c = '+' ∨ c = '-' then c :: (List.replicate (w - s.length) '0' ++ rest)
      else List.replicate (w - s.length) '0' ++ s
    | [] => List.replicate w '0'

/-- Model of `str.join` on a separator (used for `'_'.join` and `' -> '.join`). -/
def strJoin (sep : Str) : List Str → Str
  | [] => []
  | [x] => x
  | x :: xs => x ++ sep ++ strJoin sep xs

/-- Fueled worker for `str.replace`: left-to-right, non-overlapping. -/
def strReplaceFuel (pat rep : Str) : Nat → Str → Str
  | 0, cs => cs
  | _ + 1, [] => []
  | f + 1, c :: rest =>
    if pat ≠ [] ∧ pat.isPrefixOf (c :: rest) then
      rep ++ strReplaceFuel pat rep f (rest.drop (pat.length - 1))
    else c :: strReplaceFuel pat rep f rest

/-- Model of Python `str.replace(pat, rep)` (all occurrences). -/
def strReplace (s pat rep : Str) : Str := strReplaceFuel pat rep s.length s

/-! ## Values

Scalar values appearing in namelists and parameter axes.  Floating-point
trigonometry (`np.cos(v * np.pi / 180.)`) is kept symbolic: the expression
tree records exactly which conversion produced a value, and the script's
`==` comparisons become structural equality on these trees (the same
values compare equal exactly when they were produced by the same
computation from equal inputs, which is how the script uses them). -/

inductive Value where
  | vint (n : Int)
  | vstr (s : Str)
  | vpi
  | vmul (a b : Value)
  | vdiv (a b : Value)
  | vcos (a : Value)
  | vsin (a : Value)
  | vopaq (s : Str)
deriving DecidableEq, Repr

/-- Model of Python `str(v)` on the scalar values drawn from the YAML file
(the trig constructors never occur there; they get a placeholder). -/
def pyStrV : Value → Str
  | .vint n => intToStr n
  | .vstr s => s
  | .vopaq s => s
  | _ => S "<float>"

/-- Model of `np.cos(v * np.pi / 180.)` (line 78 of the script). -/
def coswVal (v : Value) : Value := .vcos (.vdiv (.vmul v .vpi) (.vint 180))

/-- Model of `np.sin(v * np.pi / 180.)` (line 79 of the script). -/
def sinwVal (v : Value) : Value := .vsin (.vdiv (.vmul v .vpi) (.vint 180))

/-! ## YAML documents

`yaml.load` can return arbitrarily nested scalars, sequences and mappings;
the script then indexes into the result without validation. -/

inductive YVal where
  | yint (n : Int)
  | ystr (s : Str)
  | ylist (l : List YVal)
  | ymap (m : List (Str × YVal))

/-- Association-list lookup (first binding wins), shared by the YAML,
namelist and filesystem maps. -/
def alookup {α : Type} : List (Str × α) → Str → Option α
  | [], _ => none
  | kv :: rest, k => if kv.1 = k then some kv.2 else alookup rest k

/-- Key lookup in a YAML mapping (Python `d[k]`). -/
def ylookup (m : List (Str × YVal)) (k : Str) : Option YVal := alookup m k

/-- Model of Python `repr` restricted to scalars (used one level deep when
stringifying flat collections below). -/
def pyReprScalar : YVal → Str
  | .yint n => intToStr n
  | .ystr s => '\'' :: (s ++ ['\''])
  | .ylist _ => S "[...]"
  | .ymap _ => S "\x7b...\x7d"

/-- Model of Python `str()` on a YAML value.  Scalars and flat collections
are rendered exactly as Python renders them; collections nested two or
more levels deep (which the script never produces) are approximated. -/
def pyStrY : YVal → Str
  | .yint n => intToStr n
  | .ystr s => s
  | .ylist l => '[' :: (strJoin (S ", ") (l.map pyReprScalar) ++ [']'])
  | .ymap m =>
    '\x7b' :: (strJoin (S ", ")
      (m.map (fun kv => pyReprScalar (.ystr kv.1) ++ S ": " ++ pyReprScalar kv.2)) ++ ['\x7d'])

/-- Conversion of a YAML scalar into a parameter value `v` as used in the
variant loop; nested collections become opaque values that compare unequal
to every namelist scalar, matching Python `==` on mixed types. -/
def yToValue : YVal → Value
  | .yint n => .vint n
  | .ystr s => .vstr s
  | y => .vopaq (pyStrY y)

/-! ## Filesystem -/

/-- Grouped namelist content: group name to (key, value) bindings, the
model of what `f90nml.read` yields for one file. -/
abbrev Nml := List (Str × List (Str × Value))

/-- One filesystem entry. -/
inductive Entry where
  | dir
  | symlink (target : Str)
  | text (lines : List Str)
  | nml (groups : Nml)
  | meta (description : Str) (notes : Str) (keywords : List Str)
deriving DecidableEq, Repr

/-- The filesystem: an association list from absolute paths to entries
(first binding wins). -/
structure FS where
  entries : List (Str × Entry)
deriving DecidableEq, Repr

/-- Look up the entry at a path. -/
def fsLookup (fs : FS) (p : Str) : Option Entry := alookup fs.entries p

/-- Model of `os.path.exists`. -/
def fsExists (fs : FS) (p : Str) : Bool := (fsLookup fs p).isSome

/-- Create or overwrite the entry at a path. -/
def fsSet (fs : FS) (p : Str) (e : Entry) : FS :=
  ⟨(p, e) :: fs.entries.filter (fun pe => ¬ pe.1 = p)⟩

/-- Remove the entry at a path (model of `os.remove`). -/
def fsRemove (fs : FS) (p : Str) : FS :=
  ⟨fs.entries.filter (fun pe => ¬ pe.1 = p)⟩

/-- Model of `shutil.rmtree`: delete a path and everything below it. -/
def fsRmtree (fs : FS) (p : Str) : FS :=
  ⟨fs.entries.filter (fun pe => ¬ (pe.1 = p ∨ strStarts (p ++ S "/") pe.1))⟩

/-- Model of `os.rename` (the temp-file-then-rename idiom of the script). -/
def fsRename (fs : FS) (src dst : Str) : FS :=
  match fsLookup fs src with
  | some e => fsSet (fsRemove fs src) dst e
  | none => fs

/-- The name of `p` as a direct child of directory `dir`, when it is one. -/
def childName (dir p : Str) : Option Str :=
  if strStarts (dir ++ S "/") p then
    let rest := p.drop (dir.length + 1)
    if rest ≠ [] ∧ ¬ rest.contains '/' then some rest else none
  else none

/-- Names of the direct children of a directory (what a one-level `glob`
inspects). -/
def fsChildren (fs : FS) (dir : Str) : List Str :=
  fs.entries.filterMap (fun pe => childName dir pe.1)

/-- Model of `git clone template exppath`: the target directory is created
and the template's tree is copied below it.  (The git remote and branch
manipulations of lines 92-95 touch only repository metadata, not the
file tree, and no claim depends on them.) -/
def cloneTree (fs : FS) (src dst : Str) : FS :=
  let copied := fs.entries.filterMap (fun pe =>
    if strStarts (src ++ S "/") pe.1 then
      some (dst ++ S "/" ++ pe.1.drop (src.length + 1), pe.2)
    else none)
  ⟨(dst, Entry.dir) :: (copied ++ fs.entries.filter (fun pe => ¬ pe.1 = dst))⟩

/-! ## Namelist patching (`f90nml.read` / `f90nml.patch`) -/

/-- Look up a key in one group's bindings. -/
def kvLookup (g : List (Str × Value)) (k : Str) : Option Value := alookup g k

/-- Overwrite (or add) one key inside a group's bindings. -/
def setKey : List (Str × Value) → Str → Value → List (Str × Value)
  | [], k, v => [(k, v)]
  | kv :: rest, k, v => if kv.1 = k then (k, v) :: rest else kv :: setKey rest k v

/-- Look up a group's bindings in a namelist. -/
def nmlGroup (n : Nml) (group : Str) : Option (List (Str × Value)) := alookup n group

/-- Look up one scalar in a namelist (`nml[group][k]` when both exist). -/
def nmlLookup (n : Nml) (group k : Str) : Option Value :=
  match nmlGroup n group with
  | some g => kvLookup g k
  | none => none

/-- Model of `f90nml.patch(path, {group: {k: v}}, out)` at the level of
parsed content: one scalar overwritten inside one group, everything else
unchanged. -/
def patchNml : Nml → Str → Str → Value → Nml
  | [], group, k, v => [(group, [(k, v)])]
  | gv :: rest, group, k, v =>
    if gv.1 = group then (group, setKey gv.2 k v) :: rest
    else gv :: patchNml rest group k v

/-- The patched content of the perturbed namelist file: for the compound
turning-angle axis the `cosw` patch is applied first and the `sinw` patch is
applied to its result (lines 99-101), otherwise the single scalar is
patched (line 104). -/
def patchedNml (turning : Bool) (orig : Nml) (group pname : Str) (v : Value) : Nml :=
  if turning then
    patchNml (patchNml orig group (S "cosw") (coswVal v)) group (S "sinw") (sinwVal v)
  else patchNml orig group pname v

/-! ## Errors and outcomes -/

/-- Uncaught Python exceptions the script can die with. -/
inductive PyError where
  | keyError (k : Str)
  | typeError (msg : Str)
  | attributeError (msg : Str)
  | nameError (v : Str)
  | fileNotFound (p : Str)
  | fileExists (p : Str)
deriving DecidableEq, Repr

/-- Terminal states of one variant-build attempt (VariantOutcome). -/
inductive Outcome where
  | alreadyExists
  | identicalToTemplate
  | committed
  | discardedDuplicate
  | discardedSyncConflict
  | discardedArchiveConflict
deriving DecidableEq, Repr

/-- Ambient context of one invocation of `ensemble`: the working
directory, the loaded `template` and normalized `startfrom` strings, and
the `payu setup` collaborator as an oracle giving, per experiment path,
the realpath of its `work` directory (lines 132-133). -/
structure Ctx where
  cwd : Str
  template : Str
  startfrom : Str
  workOracle : Str → Str

/-- Result of one variant-build attempt: the script's control-flow result
(an outcome, or the uncaught exception it dies with), the value of the
function-level `syncdir` variable afterwards, the filesystem, and whether
the variant's path was appended to the `ensemble` result list. -/
structure BuildOut where
  result : Except PyError Outcome
  syncdir : Option Str
  fs : FS
  contributed : Bool
deriving Repr

/-- Line 65: `exppath = os.path.join(os.getcwd(), '_'.join([template, name, str(v)]))`. -/
def exppathOf (ctx : Ctx) (pname : Str) (v : Value) : Str :=
  pyJoin ctx.cwd (strJoin (S "_") [ctx.template, pname, pyStrV v])

/-- Lines 66-67: the variant's directory basename. -/
def expnameOf (ctx : Ctx) (pname : Str) (v : Value) : Str :=
  pyBasename (pyRelpath (exppathOf ctx pname v) ctx.cwd)

/-- Line 56: `templatepath = os.path.join(os.getcwd(), template)`. -/
def templatepathOf (ctx : Ctx) : Str := pyJoin ctx.cwd ctx.template

/-- Line 63: recognition of the compound turning-angle axis. -/
def isTurningAngle (fname group pname : Str) : Bool :=
  decide (fname = S "ice/cice_in.nml") && decide (group = S "dynamics_nml") &&
    decide (pname = S "turning_angle")

/-- Lines 74-84: read the template's namelist group and decide whether the
requested parameters are identical to the template (`skip`), with the
Python evaluation order: missing keys raise `KeyError`, and the `and` of
line 80-81 short-circuits, so `sinw` is only read when `cosw` matched. -/
def skipCheck (tnml : Nml) (turning : Bool) (group pname : Str) (v : Value) :
    Except PyError Bool :=
  match nmlGroup tnml group with
  | none => .error (.keyError group)
  | some gb =>
    if turning then
      match kvLookup gb (S "cosw") with
      | none => .error (.keyError (S "cosw"))
      | some c =>
        if c = coswVal v then
          match kvLookup gb (S "sinw") with
          | none => .error (.keyError (S "sinw"))
          | some s => .ok (decide (s = sinwVal v))
        else .ok false
    else
      match kvLookup gb pname with
      | none => .error (.keyError pname)
      | some x => .ok (decide (x = v))

/-! ## The SYNCDIR rewrite (lines 112-122) -/

/-- One pass over the lines of `sync_data.sh`, carrying the function-level
`syncdir` variable: a line starting with `SYNCDIR=` is replaced by
`SYNCDIR=` followed by `os.path.join(os.path.dirname(value), expname)`
(lines 116-119) and rebinds `syncdir`; other lines pass through (line 121).
Returns the new lines and the final value of `syncdir`. -/
def syncRewrite (expname : Str) : List Str → Option Str → List Str × Option Str
  | [], sd => ([], sd)
  | l :: ls, sd =>
    if strStarts (S "SYNCDIR=") l then
      let syncdir := pyJoin (pyDirname (l.drop 8)) expname
      let rest := syncRewrite expname ls (some syncdir)
      ((S "SYNCDIR=" ++ syncdir) :: rest.1, rest.2)
    else
      let rest := syncRewrite expname ls sd
      (l :: rest.1, rest.2)

/-- Lines 176-177: the replacement for a `jobname:` line of `config.yaml`. -/
def jobnameLine (pname : Str) (v : Value) : Str :=
  S "jobname: " ++ strJoin (S "_") [pname, pyStrV v]

/-- Lines 173-179: the line transformation applied to `config.yaml`. -/
def jobnameRewrite (pname : Str) (v : Value) (lines : List Str) : List Str :=
  lines.map (fun l => if strStarts (S "jobname:") l then jobnameLine pname v else l)

/-- Lines 99-105: write the patched namelist through the temp files
`fpath_tmp2` / `fpath_tmp` and rename the result over `fpath`. -/
def nmlPatchFiles (turning : Bool) (fs : FS) (fpath : Str) (orig : Nml)
    (group pname : Str) (v : Value) : FS :=
  if turning then
    let n1 := patchNml orig group (S "cosw") (coswVal v)
    let n2 := patchNml n1 group (S "sinw") (sinwVal v)
    let fsA := fsSet fs (fpath ++ S "_tmp2") (.nml n1)
    let fsB := fsSet fsA (fpath ++ S "_tmp") (.nml n2)
    let fsC := fsRemove fsB (fpath ++ S "_tmp2")
    fsRename fsC (fpath ++ S "_tmp") fpath
  else
    let fsA := fsSet fs (fpath ++ S "_tmp") (.nml (patchNml orig group pname v))
    fsRename fsA (fpath ++ S "_tmp") fpath

/-! ## Restart linkage (lines 128-168, non-test branch) -/

/-- Result of the restart-linkage phase. -/
inductive RestartResult where
  | conflict (fs : FS)
  | fail (e : PyError) (fs : FS)
  | done (fs : FS) (restartpath : Str)

/-- Lines 131-168 with `test=False`: the `payu` setup collaborator is the
`workOracle` (it yields the realpath of `exppath/work` and, per its
interface in the spec, creates the archive directory reachable by
substituting `/work/` with `/archive/`); then the archive-conflict check,
the archive and restart symlinks, `makedirs` of
`archive/output<startfrom>/ice` and the copy of the template's
`cice_in.nml`.  `os.path.realpath` on the relative template path is
modelled as resolution against the working directory (symlink chasing is
not modelled). -/
def restartPhase (ctx : Ctx) (fs : FS) (exppath : Str) : RestartResult :=
  let workpath := ctx.workOracle exppath
  let archivepath := strReplace workpath (S "/work/") (S "/archive/")
  let fsA := if fsExists fs archivepath then fs else fsSet fs archivepath .dir
  if ((fsChildren fsA archivepath).filter
      (fun n => strStarts (S "output") n || strStarts (S "restart") n)) ≠ [] then
    .conflict fsA
  else
    let fsB := fsSet fsA (pyJoin exppath (S "archive")) (.symlink archivepath)
    let d1 := pyJoin (S "archive") (S "restart" ++ ctx.startfrom)
    let restartpath := pyJoin ctx.cwd (pyJoin ctx.template d1)
    let fsC := fsSet fsB (pyJoin exppath d1) (.symlink restartpath)
    let outd := pyJoin (S "archive") (S "output" ++ ctx.startfrom)
    let d2 := pyJoin outd (S "ice")
    let outdirAbs := pyJoin exppath outd
    let icedirAbs := pyJoin exppath d2
    if fsExists fsC icedirAbs then .fail (.fileExists icedirAbs) fsC
    else
      let fsC1 := if fsExists fsC outdirAbs then fsC else fsSet fsC outdirAbs .dir
      let fsD := fsSet fsC1 icedirAbs .dir
      let srcnml := pyJoin ctx.cwd (pyJoin ctx.template (pyJoin d2 (S "cice_in.nml")))
      match fsLookup fsD srcnml with
      | some e => .done (fsSet fsD (pyJoin icedirAbs (S "cice_in.nml")) e) restartpath
      | none => .fail (.fileNotFound srcnml) fsD

/-! ## Final steps of a committed variant (lines 170-212) -/

/-- Lines 170-212: rewrite the `jobname:` line of `config.yaml` through a
temp file, amend `metadata.yaml`, remove `run_summary_*.csv` files, and
commit.  `restartpath` is `none` exactly when `startfrom == 'rest'`
(matching the branch of lines 187-190). -/
def finishVariant (ctx : Ctx) (fname group pname : Str) (v : Value)
    (turningangle : Bool) (exppath : Str) (restartpath : Option Str)
    (sd : Option Str) (fs : FS) : BuildOut :=
  let templatepath := templatepathOf ctx
  let configpath := pyJoin exppath (S "config.yaml")
  match fsLookup fs configpath with
  | some (.text clines) =>
    let fsA := fsSet fs (configpath ++ S "_tmp") (.text (jobnameRewrite pname v clines))
    let fsB := fsRename fsA (configpath ++ S "_tmp") configpath
    let mpath := pyJoin exppath (S "metadata.yaml")
    match fsLookup fsB mpath with
    | some (.meta desc notes keywords) =>
      let desc1 := desc ++
        S "\nNOTE: this is a perturbation experiment, but the description above is for the control run."
      let desc2 := desc1 ++ S "\nThis perturbation experiment is based on the control run "
        ++ templatepath
      let desc3 := desc2 ++ (match restartpath with
        | none => S "\nbut with condition of rest"
        | some rp => S "\nbut with initial condition " ++ rp)
      let desc4 := desc3 ++ (if turningangle then
          S "\nand " ++ strJoin (S " -> ") [fname, group, S "cosw and sinw"]
            ++ S " changed to give a turning angle of " ++ pyStrV v ++ S " degrees."
        else
          S "\nand " ++ strJoin (S " -> ") [fname, group, pname]
            ++ S " changed to " ++ pyStrV v)
      let keywords1 := keywords ++ [S "perturbation", pname]
        ++ (if turningangle then [S "cosw", S "sinw"] else [])
      let fsC := fsSet fsB mpath (.meta desc4 notes keywords1)
      let fsD : FS := ⟨fsC.entries.filter (fun pe =>
        match childName exppath pe.1 with
        | some n => ¬ (strStarts (S "run_summary_") n ∧ (S ".csv").isSuffixOf n)
        | none => true)⟩
      ⟨.ok .committed, sd, fsD, true⟩
    | _ => ⟨.error (.fileNotFound mpath), sd, fsB, false⟩
  | _ => ⟨.error (.fileNotFound configpath), sd, fs, false⟩

/-! ## One variant-build attempt (loop body, lines 64-212) -/

/-- The body of the innermost loop of `ensemble` for one axis value `v`:
existence check, no-op detection against the template, clone, namelist
patch, dirty check, SYNCDIR rewrite and conflict check, restart linkage
(when `startfrom != 'rest'`), jobname and metadata updates, commit.
`sdPrev` is the value of the function-level `syncdir` variable when the
iteration starts (it leaks across iterations in the Python source). -/
def buildVariant (ctx : Ctx) (fname group pname : Str) (v : Value)
    (sdPrev : Option Str) (fs : FS) : BuildOut :=
  let templatepath := templatepathOf ctx
  let turningangle := isTurningAngle fname group pname
  let exppath := exppathOf ctx pname v
  let expname := expnameOf ctx pname v
  if fsExists fs exppath then
    ⟨.ok .alreadyExists, sdPrev, fs, true⟩
  else
    match fsLookup fs (pyJoin templatepath fname) with
    | some (.nml tnml) =>
      match skipCheck tnml turningangle group pname v with
      | .error e => ⟨.error e, sdPrev, fs, false⟩
      | .ok true => ⟨.ok .identicalToTemplate, sdPrev, fs, false⟩
      | .ok false =>
        let fs1 := cloneTree fs templatepath exppath
        let fpath := pyJoin exppath fname
        match fsLookup fs1 fpath with
        | some (.nml orig) =>
          let fs2 := nmlPatchFiles turningangle fs1 fpath orig group pname v
          if patchedNml turningangle orig group pname v = orig then
            ⟨.ok .discardedDuplicate, sdPrev, fsRmtree fs2 exppath, false⟩
          else
            let sdpath := pyJoin exppath (S "sync_data.sh")
            match fsLookup fs2 sdpath with
            | some (.text slines) =>
              let sw := syncRewrite expname slines sdPrev
              let fs3 := fsSet fs2 (sdpath ++ S "_tmp") (.text sw.1)
              let fs4 := fsRename fs3 (sdpath ++ S "_tmp") sdpath
              match sw.2 with
              | none => ⟨.error (.nameError (S "syncdir")), sdPrev, fs4, false⟩
              | some syncdir =>
                if fsExists fs4 syncdir then
                  ⟨.ok .discardedSyncConflict, some syncdir, fsRmtree fs4 exppath, false⟩
                else
                  if ctx.startfrom ≠ S "rest" then
                    match restartPhase ctx fs4 exppath with
                    | .conflict fsA =>
                      ⟨.ok .discardedArchiveConflict, some syncdir, fsRmtree fsA exppath, false⟩
                    | .fail e fsX => ⟨.error e, some syncdir, fsX, false⟩
                    | .done fsD restartpath =>
                      finishVariant ctx fname group pname v turningangle exppath
                        (some restartpath) (some syncdir) fsD
                  else
                    finishVariant ctx fname group pname v turningangle exppath
                      none (some syncdir) fs4
            | _ => ⟨.error (.fileNotFound sdpath), sdPrev, fs2, false⟩
        | _ => ⟨.error (.fileNotFound fpath), sdPrev, fs1, false⟩
    | _ => ⟨.error (.fileNotFound (pyJoin templatepath fname)), sdPrev, fs, false⟩

/-! ## The full run (lines 48-228) -/

/-- Mutable state threaded through the variant loops. -/
structure RunState where
  fs : FS
  syncdir : Option Str
  ensemble : List Str
deriving Repr

/-- Line 64: loop over the values of one axis.  An uncaught exception
stops the whole run (the error is returned with the state at that point). -/
def runValues (ctx : Ctx) (fname group pname : Str) :
    List Value → RunState → Option PyError × RunState
  | [], st => (none, st)
  | v :: vs, st =>
    let out := buildVariant ctx fname group pname v st.syncdir st.fs
    let st1 : RunState :=
      ⟨out.fs, out.syncdir,
        st.ensemble ++ (if out.contributed then [exppathOf ctx pname v] else [])⟩
    match out.result with
    | .error e => (some e, st1)
    | .ok _ => runValues ctx fname group pname vs st1

/-- Python iteration over the `values` of one parameter: a YAML sequence
yields its elements, a string yields its characters, a mapping yields its
keys, an integer raises `TypeError`. -/
def yValuesList : YVal → Except PyError (List Value)
  | .ylist l => .ok (l.map yToValue)
  | .ystr s => .ok (s.map (fun c => Value.vstr [c]))
  | .ymap m => .ok (m.map (fun kv => Value.vstr kv.1))
  | .yint _ => .error (.typeError (S "int object is not iterable"))

/-- Line 62: loop over the parameter names of one group. -/
def runNames (ctx : Ctx) (fname group : Str) :
    List (Str × YVal) → RunState → Option PyError × RunState
  | [], st => (none, st)
  | (pname, vals) :: rest, st =>
    match yValuesList vals with
    | .error e => (some e, st)
    | .ok vs =>
      match runValues ctx fname group pname vs st with
      | (some e, st1) => (some e, st1)
      | (none, st1) => runNames ctx fname group rest st1

/-- Line 61: loop over the groups of one namelist file (`nmls.items()`
raises `AttributeError` when the value is not a mapping). -/
def runGroups (ctx : Ctx) (fname : Str) :
    List (Str × YVal) → RunState → Option PyError × RunState
  | [], st => (none, st)
  | (group, names) :: rest, st =>
    match names with
    | .ymap nm =>
      match runNames ctx fname group nm st with
      | (some e, st1) => (some e, st1)
      | (none, st1) => runGroups ctx fname rest st1
    | _ => (some (.attributeError (S "items")), st)

/-- Line 60: loop over the namelist files. -/
def runFiles (ctx : Ctx) :
    List (Str × YVal) → RunState → Option PyError × RunState
  | [], st => (none, st)
  | (fname, nmls) :: rest, st =>
    match nmls with
    | .ymap groups =>
      match runGroups ctx fname groups st with
      | (some e, st1) => (some e, st1)
      | (none, st1) => runFiles ctx rest st1
    | _ => (some (.attributeError (S "items")), st)

/-- Lines 54-60: extract `template`, the normalized `startfrom` and the
`namelists` mapping from the parsed YAML document.  A missing key raises
`KeyError`; a non-string `template` raises `TypeError` inside
`os.path.join`; a non-mapping `namelists` raises `AttributeError` at
`.items()`; but `str(indata['startfrom'])` succeeds on every YAML value,
so no shape of `startfrom` fails here. -/
def loadSpec (doc : YVal) : Except PyError (Str × Str × List (Str × YVal)) :=
  match doc with
  | .ymap m =>
    match ylookup m (S "template") with
    | none => .error (.keyError (S "template"))
    | some (.ystr template) =>
      match ylookup m (S "startfrom") with
      | none => .error (.keyError (S "startfrom"))
      | some sf =>
        let startfrom := pyZfill (pyLower (pyStrip (pyStrY sf))) 3
        match ylookup m (S "namelists") with
        | none => .error (.keyError (S "namelists"))
        | some (.ymap nmls) => .ok (template, startfrom, nmls)
        | some _ => .error (.attributeError (S "items"))
    | some _ => .error (.typeError (S "join"))
  | _ => .error (.typeError (S "indexing"))

/-- Line 217: the `glob` pattern `output[0-9][0-9][0-9]*` on one name. -/
def matchesOutputPat (n : Str) : Bool :=
  strStarts (S "output") n ∧
    (let r := n.drop 6
     3 ≤ r.length ∧ (r.take 3).all Char.isDigit)

/-- Line 217: the number of `glob` matches of
`exppath/archive/output[0-9][0-9][0-9]*`. -/
def countOutputs (fs : FS) (exppath : Str) : Nat :=
  ((fsChildren fs (pyJoin exppath (S "archive"))).filter matchesOutputPat).length

/-- Lines 216-227: for each ensemble member, `doneruns` is the output
count minus one, `newruns = nruns - doneruns`, and a run request for
`newruns` cycles is dispatched exactly when `newruns > 0` (otherwise only
an informational message is printed). -/
def reconcile (fs : FS) (nruns : Int) : List Str → List (Str × Int)
  | [] => []
  | p :: ps =>
    let doneruns : Int := (countOutputs fs p : Int) - 1
    let newruns := nruns - doneruns
    (if 0 < newruns then [(p, newruns)] else []) ++ reconcile fs nruns ps

/-- Lines 215-227: the whole reconciliation step, guarded by
`if indata['nruns'] > 0`. -/
def reconcileAll (fs : FS) (nruns : Int) (ens : List Str) : List (Str × Int) :=
  if 0 < nruns then reconcile fs nruns ens else []

/-- Result of one invocation of `ensemble`: the uncaught exception if the
run died, the final filesystem, the `ensemble` result list, and the run
requests dispatched to the scheduler. -/
structure RunOut where
  failure : Option PyError
  fs : FS
  ensemble : List Str
  dispatches : List (Str × Int)
deriving Repr

/-- The whole `ensemble` function (lines 48-228, non-test mode): load the
specification, run the variant loops, then read `nruns` (only now - line
215) and reconcile run counts.  `workOracle` stands for the external
`payu` collaborator. -/
def ensembleRun (cwd : Str) (workOracle : Str → Str) (doc : YVal) (fs : FS) : RunOut :=
  match loadSpec doc with
  | .error e => ⟨some e, fs, [], []⟩
  | .ok (template, startfrom, nmls) =>
    let ctx : Ctx := ⟨cwd, template, startfrom, workOracle⟩
    match runFiles ctx nmls ⟨fs, none, []⟩ with
    | (some e, st) => ⟨some e, st.fs, st.ensemble, []⟩
    | (none, st) =>
      match doc with
      | .ymap m =>
        match ylookup m (S "nruns") with
        | some (.yint n) => ⟨none, st.fs, st.ensemble, reconcileAll st.fs n st.ensemble⟩
        | some _ => ⟨some (.typeError (S "comparison")), st.fs, st.ensemble, []⟩
        | none => ⟨some (.keyError (S "nruns")), st.fs, st.ensemble, []⟩
      | _ => ⟨some (.typeError (S "indexing")), st.fs, st.ensemble, []⟩

/-! ## Derived path helpers and concrete fixtures -/

/-- The part `os.path.join` puts before a relative second component. -/
def joinPre (a : Str) : Str :=
  if a = [] then [] else if a.getLast? = some '/' then a else a ++ S "/"

/-- States that have no (stale) entries strictly below a path. -/
def noEntriesUnder (fs : FS) (p : Str) : Prop :=
  ∀ pe ∈ fs.entries, strStarts (p ++ S "/") pe.1 = false

/-- Concrete template tree used by witnesses and counterexamples. -/
def tmplFS : FS := ⟨[
  (S "/w/tmpl", .dir),
  (S "/w/tmpl/atm.nml", .nml [(S "g", [(S "p", .vint 1)])]),
  (S "/w/tmpl/sync_data.sh", .text [S "stuff", S "SYNCDIR=/d/sync/tmpl", S "more"]),
  (S "/w/tmpl/config.yaml", .text [S "jobname: tmpl", S "x: 1"]),
  (S "/w/tmpl/metadata.yaml", .meta (S "D") (S "N") [S "k"])]⟩

/-- A context with `startfrom = rest`. -/
def restCtx : Ctx := ⟨S "/w", S "tmpl", S "rest", fun _ => S "/scratch/work/tmpl_p_2"⟩

/-- The template tree plus an existing directory at the rewritten sync
destination of the variant for value 2. -/
def syncConflictFS : FS := ⟨tmplFS.entries ++ [(S "/d/sync/tmpl_p_2", .dir)]⟩

/-- Template tree whose `sync_data.sh` has no `SYNCDIR=` line. -/
def noSyncFS : FS := ⟨[
  (S "/w/tmpl", .dir),
  (S "/w/tmpl/atm.nml", .nml [(S "g", [(S "p", .vint 1)])]),
  (S "/w/tmpl/sync_data.sh", .text [S "stuff", S "more"]),
  (S "/w/tmpl/config.yaml", .text [S "jobname: tmpl"]),
  (S "/w/tmpl/metadata.yaml", .meta (S "D") (S "N") [S "k"])]⟩

/-- A variant with three archived output cycles. -/
def outputsFS : FS := ⟨[
  (S "/w/e1/archive", .dir),
  (S "/w/e1/archive/output000", .dir),
  (S "/w/e1/archive/output001", .dir),
  (S "/w/e1/archive/output002", .dir)]⟩

/-- Conditions under which the load phase (lines 54-60) aborts: the
document is not a mapping, `template` is absent or not a string,
`startfrom` is absent, or `namelists` is absent or not a mapping.
A present `startfrom` of ANY shape is accepted, because
`str(indata['startfrom'])` succeeds on every value. -/
def loadAborts (doc : YVal) : Bool :=
  match doc with
  | .ymap m =>
    match ylookup m (S "template") with
    | some (.ystr _) =>
      (ylookup m (S "startfrom")).isNone
      || (match ylookup m (S "namelists") with
          | some (.ymap _) => false
          | _ => true)
    | _ => true
  | _ => true

/-- A specification document whose `startfrom` is malformed (a sequence,
where the interface requires a string or integer). -/
def malformedDoc : YVal := .ymap [
  (S "template", .ystr (S "tmpl")),
  (S "startfrom", .ylist [.yint 1, .yint 2]),
  (S "nruns", .yint 1),
  (S "namelists", .ymap [(S "atm.nml", .ymap [(S "g", .ymap [(S "p", .ylist [.yint 2])])])])]

/-- Mid-build tree used by the C8 witness: a variant directory holding
`config.yaml` and `metadata.yaml`, as `finishVariant` receives it. -/
def c8FS : FS := ⟨[
  (S "/w/tmpl_p_2", .dir),
  (S "/w/tmpl_p_2/config.yaml", .text [S "jobname: tmpl", S "x: 1"]),
  (S "/w/tmpl_p_2/metadata.yaml", .meta (S "D") (S "N") [S "k"])]⟩

/-- Template tree whose archive holds the template's `output001` cycle
content (the deep `cice_in.nml` read by the restart linkage), with no
direct output-pattern child entry under `archive` itself. -/
def c10FS : FS := ⟨[
  (S "/w/tmpl", .dir),
  (S "/w/tmpl/atm.nml", .nml [(S "g", [(S "p", .vint 1)])]),
  (S "/w/tmpl/sync_data.sh", .text [S "stuff", S "SYNCDIR=/d/sync/tmpl", S "more"]),
  (S "/w/tmpl/config.yaml", .text [S "jobname: tmpl", S "x: 1"]),
  (S "/w/tmpl/metadata.yaml", .meta (S "D") (S "N") [S "k"]),
  (S "/w/tmpl/archive/output001/ice/cice_in.nml", .nml [(S "i", [(S "q", .vint 7)])])]⟩

/-- A context with `startfrom = 001` (an integer 1 after `zfill(3)`). -/
def runCtx : Ctx := ⟨S "/w", S "tmpl", S "001", fun _ => S "/scratch/work/tmpl_p_2"⟩

/-! ## Helper lemmas: strings and paths -/

theorem strStarts_iff (p s : Str) : strStarts p s = true ↔ p <+: s := by
  simp [strStarts, List.isPrefixOf_iff_prefix]

theorem strStarts_append (p t : Str) : strStarts p (p ++ t) = true := by
  simp [strStarts, List.isPrefixOf_iff_prefix]

theorem strStarts_cons_append (p : Str) (c : Char) (t : Str) :
    strStarts (p ++ [c]) (p ++ c :: t) = true := by
  have : p ++ c :: t = (p ++ [c]) ++ t := by simp
  rw [this]; exact strStarts_append _ _

theorem append_ne_self (a s : Str) (h : s ≠ []) : a ++ s ≠ a := by
  intro he
  have : a.length + s.length = a.length := by
    simpa using congrArg List.length he
  have : s.length = 0 := by omega
  exact h (List.length_eq_zero.mp this)

theorem cons_append_ne_self (a : Str) (c : Char) (s : Str) : a ++ c :: s ≠ a := by
  exact append_ne_self a (c :: s) (by simp)


theorem pyJoin_rel (a r : Str) (hr : strStarts (S "/") r = false) :
    pyJoin a r = joinPre a ++ r := by
  unfold pyJoin joinPre
  rw [hr]
  by_cases ha : a = [] <;> simp [ha]
  by_cases hl : a.getLast? = some '/' <;> simp [hl]

theorem joinPre_length (a : Str) : a.length ≤ (joinPre a).length := by
  unfold joinPre
  by_cases ha : a = [] <;> simp [ha]
  by_cases hl : a.getLast? = some '/' <;> simp [hl]

theorem pyJoin_rel_length (a r : Str) (hr : strStarts (S "/") r = false) :
    a.length + r.length ≤ (pyJoin a r).length := by
  rw [pyJoin_rel a r hr]
  have := joinPre_length a
  simp; omega

theorem pyJoin_append_ne_self (a r t : Str) (hr0 : r ≠ [])
    (hr : strStarts (S "/") r = false) : pyJoin a r ++ t ≠ a := by
  intro he
  have h1 := pyJoin_rel_length a r hr
  have h2 : (pyJoin a r ++ t).length = a.length := by rw [he]
  have h3 : r.length ≠ 0 := by
    intro h0; exact hr0 (List.length_eq_zero.mp h0)
  simp at h2; omega

theorem pyJoin_ne_self (a r : Str) (hr0 : r ≠ [])
    (hr : strStarts (S "/") r = false) : pyJoin a r ≠ a := by
  have := pyJoin_append_ne_self a r [] hr0 hr
  simpa using this

theorem pyJoin_rel_inj (a r₁ r₂ : Str) (h1 : strStarts (S "/") r₁ = false)
    (h2 : strStarts (S "/") r₂ = false) : pyJoin a r₁ = pyJoin a r₂ ↔ r₁ = r₂ := by
  rw [pyJoin_rel a r₁ h1, pyJoin_rel a r₂ h2]
  simp

/-! ## Helper lemmas: association lists and the filesystem -/

theorem alookup_append {α : Type} (l₁ l₂ : List (Str × α)) (k : Str) :
    alookup (l₁ ++ l₂) k =
      (match alookup l₁ k with
       | some v => some v
       | none => alookup l₂ k) := by
  induction l₁ with
  | nil => simp [alookup]
  | cons kv rest ih =>
    by_cases h : kv.1 = k <;> simp [alookup, h, ih]

theorem alookup_eq_none_of_all {α : Type} (l : List (Str × α)) (k : Str)
    (h : ∀ pe ∈ l, pe.1 ≠ k) : alookup l k = none := by
  induction l with
  | nil => rfl
  | cons kv rest ih =>
    have hk : kv.1 ≠ k := h kv (by simp)
    simp [alookup, hk]
    exact ih (fun pe hpe => h pe (by simp [hpe]))

theorem alookup_filter_keep {α : Type} (l : List (Str × α)) (f : Str × α → Bool)
    (k : Str) (h : ∀ a, f (k, a) = true) :
    alookup (l.filter f) k = alookup l k := by
  induction l with
  | nil => rfl
  | cons kv rest ih =>
    by_cases hk : kv.1 = k
    · have : f kv = true := by
        have : kv = (k, kv.2) := by
          cases kv; simp at hk; simp [hk]
        rw [this]; exact h _
      simp [List.filter, this, alookup, hk, ih]
    · by_cases hf : f kv = true <;> simp [List.filter, hf, alookup, hk, ih]

theorem alookup_filter_drop {α : Type} (l : List (Str × α)) (f : Str × α → Bool)
    (k : Str) (h : ∀ a, f (k, a) = false) :
    alookup (l.filter f) k = none := by
  induction l with
  | nil => rfl
  | cons kv rest ih =>
    by_cases hk : kv.1 = k
    · have hkv : f kv = false := by
        have he : kv = (k, kv.2) := by
          cases kv; simp at hk; simp [hk]
        rw [he]; exact h _
      simp [List.filter, hkv, ih]
    · by_cases hf : f kv = true <;> simp [List.filter, hf, alookup, hk, ih]


theorem fsLookup_fsSet (fs : FS) (p : Str) (e : Entry) (q : Str) :
    fsLookup (fsSet fs p e) q = if q = p then some e else fsLookup fs q := by
  by_cases h : q = p
  · simp [fsSet, fsLookup, alookup, h]
  · rw [if_neg h]
    show alookup ((p, e) :: fs.entries.filter (fun pe => ¬ pe.1 = p)) q = fsLookup fs q
    rw [alookup, if_neg (by simpa using Ne.symm h)]
    exact alookup_filter_keep _ _ _ (fun a => by simp [h])

theorem fsExists_fsSet (fs : FS) (p : Str) (e : Entry) (q : Str) :
    fsExists (fsSet fs p e) q = (decide (q = p) || fsExists fs q) := by
  by_cases h : q = p <;> simp [fsExists, fsLookup_fsSet, h]

theorem fsLookup_fsRemove (fs : FS) (p q : Str) :
    fsLookup (fsRemove fs p) q = if q = p then none else fsLookup fs q := by
  by_cases h : q = p
  · rw [if_pos h]; subst h
    exact alookup_filter_drop _ _ _ (fun a => by simp)
  · rw [if_neg h]
    exact alookup_filter_keep _ _ _ (fun a => by simp [h])

theorem fsLookup_fsRmtree (fs : FS) (p q : Str) (h1 : q ≠ p)
    (h2 : strStarts (p ++ S "/") q = false) :
    fsLookup (fsRmtree fs p) q = fsLookup fs q := by
  exact alookup_filter_keep _ _ _ (fun a => by simp [h1, h2])

theorem fsExists_fsRmtree_self (fs : FS) (p : Str) :
    fsExists (fsRmtree fs p) p = false := by
  have h : fsLookup (fsRmtree fs p) p = none :=
    alookup_filter_drop _ _ _ (fun a => by simp)
  simp [fsExists, h]

theorem fsLookup_fsRename (fs : FS) (src dst q : Str) (h1 : q ≠ src) (h2 : q ≠ dst) :
    fsLookup (fsRename fs src dst) q = fsLookup fs q := by
  unfold fsRename
  cases hs : fsLookup fs src with
  | none => rfl
  | some e =>
    rw [fsLookup_fsSet, if_neg h2, fsLookup_fsRemove, if_neg h1]

theorem fsExists_fsRename (fs : FS) (src dst q : Str) (h1 : q ≠ src) (h2 : q ≠ dst) :
    fsExists (fsRename fs src dst) q = fsExists fs q := by
  simp [fsExists, fsLookup_fsRename fs src dst q h1 h2]

/-! ## Helper lemmas: children and cloning -/

theorem S_slash : S "/" = ['/'] := rfl

theorem childName_of_append (d n : Str) :
    childName d (d ++ '/' :: n) =
      if n ≠ [] ∧ ¬ n.contains '/' then some n else none := by
  unfold childName
  have h1 : strStarts (d ++ S "/") (d ++ '/' :: n) = true := strStarts_cons_append d '/' n
  have h2 : (d ++ '/' :: n).drop (d.length + 1) = n := by
    have ha : d ++ '/' :: n = (d ++ ['/']) ++ n := by simp
    have hl : d.length + 1 = (d ++ ['/']).length := by simp
    rw [ha, hl, List.drop_left]
  rw [h1, h2]
  simp

theorem childName_none_of_far (d p : Str) (h : strStarts (d ++ S "/") p = false) :
    childName d p = none := by
  unfold childName
  rw [h]
  simp


theorem fsExists_cloneTree_self (fs : FS) (src dst : Str) :
    fsExists (cloneTree fs src dst) dst = true := by
  simp [cloneTree, fsExists, fsLookup, alookup]

theorem alookup_clone_copied (l : List (Str × Entry)) (src dst r : Str) :
    alookup (l.filterMap (fun pe =>
      if strStarts (src ++ S "/") pe.1 then
        some (dst ++ S "/" ++ pe.1.drop (src.length + 1), pe.2)
      else none)) (dst ++ '/' :: r) = alookup l (src ++ '/' :: r) := by
  induction l with
  | nil => rfl
  | cons pe rest ih =>
    by_cases hp : strStarts (src ++ S "/") pe.1 = true
    · obtain ⟨t, ht⟩ := (strStarts_iff _ _).mp hp
      have hpe : pe.1 = src ++ '/' :: t := by
        rw [← ht]; simp [S]
      have hp2 : strStarts (src ++ ['/']) (src ++ '/' :: t) = true :=
        strStarts_cons_append src '/' t
      have hdrop : pe.1.drop (src.length + 1) = t := by
        rw [hpe]
        have ha : src ++ '/' :: t = (src ++ ['/']) ++ t := by simp
        have hl : src.length + 1 = (src ++ ['/']).length := by simp
        rw [ha, hl, List.drop_left]
      by_cases hq : t = r
      · subst hq
        simp [List.filterMap_cons, hp, hp2, alookup, hdrop, hpe, S]
      · simp [List.filterMap_cons, hp, hp2, alookup, hdrop, hpe, hq, S]
        simpa [S] using ih
    · have hold : ¬ (pe.1 = src ++ '/' :: r) := by
        intro he
        rw [he] at hp
        exact hp (strStarts_cons_append src '/' r)
      simp only [List.filterMap_cons]
      rw [if_neg hp]
      rw [alookup, if_neg hold]
      exact ih

theorem fsLookup_cloneTree_under (fs : FS) (src dst r : Str)
    (hj : noEntriesUnder fs dst) :
    fsLookup (cloneTree fs src dst) (dst ++ '/' :: r) = fsLookup fs (src ++ '/' :: r) := by
  have hne : ¬ (dst = dst ++ '/' :: r) := fun h => cons_append_ne_self dst '/' r h.symm
  unfold fsLookup
  rw [cloneTree]
  rw [alookup, if_neg hne]
  rw [alookup_append]
  rw [alookup_clone_copied]
  cases ho : alookup fs.entries (src ++ '/' :: r) with
  | some e => rfl
  | none =>
    have hnone : alookup (fs.entries.filter (fun pe => ¬ pe.1 = dst)) (dst ++ '/' :: r)
        = none := by
      apply alookup_eq_none_of_all
      intro pe hpe hk
      have hmem := (List.mem_filter.mp hpe).1
      have hfar := hj pe hmem
      rw [hk, S_slash, strStarts_cons_append dst '/' r] at hfar
      simp at hfar
    rw [hnone]

/-! ## Helper lemmas: the SYNCDIR rewrite and namelist patching -/

theorem syncRewrite_fst (e : Str) (ls : List Str) (sd : Option Str) :
    (syncRewrite e ls sd).1 = ls.map (fun l =>
      if strStarts (S "SYNCDIR=") l then
        S "SYNCDIR=" ++ pyJoin (pyDirname (l.drop 8)) e
      else l) := by
  induction ls generalizing sd with
  | nil => rfl
  | cons l rest ih =>
    by_cases h : strStarts (S "SYNCDIR=") l = true
    · simp [syncRewrite, h, ih]
    · simp at h
      simp [syncRewrite, h, ih]

theorem syncRewrite_snd_unmatched (e : Str) (ls : List Str) (sd : Option Str)
    (h : ∀ l ∈ ls, strStarts (S "SYNCDIR=") l = false) :
    (syncRewrite e ls sd).2 = sd := by
  induction ls generalizing sd with
  | nil => rfl
  | cons l rest ih =>
    have hl := h l (by simp)
    simp [syncRewrite, hl]
    exact ih sd (fun x hx => h x (by simp [hx]))

theorem kvLookup_setKey_self (g : List (Str × Value)) (k : Str) (v : Value) :
    kvLookup (setKey g k v) k = some v := by
  induction g with
  | nil => simp [setKey, kvLookup, alookup]
  | cons kv rest ih =>
    by_cases h : kv.1 = k
    · simp [setKey, h, kvLookup, alookup]
    · simp [setKey, h, kvLookup, alookup] at ih ⊢
      exact ih

theorem kvLookup_setKey_other (g : List (Str × Value)) (k k₂ : Str) (v : Value)
    (h : k₂ ≠ k) : kvLookup (setKey g k v) k₂ = kvLookup g k₂ := by
  induction g with
  | nil =>
    show alookup [(k, v)] k₂ = alookup ([] : List (Str × Value)) k₂
    simp [alookup, Ne.symm h]
  | cons kv rest ih =>
    show alookup (if kv.1 = k then (k, v) :: rest else kv :: setKey rest k v) k₂
      = alookup (kv :: rest) k₂
    by_cases hk : kv.1 = k
    · rw [if_pos hk]
      have h1 : ¬ ((k, v).1 = k₂) := by simpa using Ne.symm h
      have h2 : ¬ (kv.1 = k₂) := by rw [hk]; exact Ne.symm h
      rw [alookup, if_neg h1, alookup, if_neg h2]
    · rw [if_neg hk]
      by_cases hq : kv.1 = k₂
      · rw [alookup, if_pos hq, alookup, if_pos hq]
      · rw [alookup, if_neg hq, alookup, if_neg hq]
        exact ih

theorem nmlGroup_patchNml_self (n : Nml) (group k : Str) (v : Value) :
    nmlGroup (patchNml n group k v) group =
      some (setKey ((nmlGroup n group).getD []) k v) := by
  induction n with
  | nil => simp [patchNml, nmlGroup, alookup, setKey]
  | cons gv rest ih =>
    by_cases h : gv.1 = group
    · simp [patchNml, h, nmlGroup, alookup]
    · simp [patchNml, h, nmlGroup, alookup] at ih ⊢
      exact ih

theorem nmlLookup_patchNml_self (n : Nml) (group k : Str) (v : Value) :
    nmlLookup (patchNml n group k v) group k = some v := by
  rw [nmlLookup, nmlGroup_patchNml_self]
  exact kvLookup_setKey_self _ _ _

theorem nmlLookup_patchNml_other (n : Nml) (group k k₂ : Str) (v : Value)
    (h : k₂ ≠ k) :
    nmlLookup (patchNml n group k v) group k₂ = nmlLookup n group k₂ := by
  rw [nmlLookup, nmlGroup_patchNml_self, nmlLookup]
  cases hg : nmlGroup n group with
  | some g =>
    simp [hg]
    exact kvLookup_setKey_other _ _ _ _ h
  | none =>
    simp [hg]
    rw [kvLookup_setKey_other _ _ _ _ h]
    simp [kvLookup, alookup]

/-! ## Claim C5 -/

/-- C5: for every value `v` on the compound turning-angle axis (which is
recognised exactly for file `ice/cice_in.nml`, group `dynamics_nml`, name
`turning_angle`), the patch step writes both `cosw` and `sinw` (never only
one), `cosw` is patched first and `sinw` is applied to the result of the
`cosw` patch, and both are derived by the same conversion
`cos(v*pi/180)` / `sin(v*pi/180)` of the same argument expression. -/
theorem turning_angle_patches_both (orig : Nml) (group pname : Str) (v : Value) :
    isTurningAngle (S "ice/cice_in.nml") (S "dynamics_nml") (S "turning_angle") = true
    ∧ nmlLookup (patchedNml true orig group pname v) group (S "cosw")
        = some (Value.vcos (.vdiv (.vmul v .vpi) (.vint 180)))
    ∧ nmlLookup (patchedNml true orig group pname v) group (S "sinw")
        = some (Value.vsin (.vdiv (.vmul v .vpi) (.vint 180)))
    ∧ patchedNml true orig group pname v
        = patchNml (patchNml orig group (S "cosw") (coswVal v)) group (S "sinw") (sinwVal v) := by
  refine ⟨rfl, ?_, ?_, rfl⟩
  · show nmlLookup (patchNml (patchNml orig group (S "cosw") (coswVal v))
      group (S "sinw") (sinwVal v)) group (S "cosw") = some (coswVal v)
    rw [nmlLookup_patchNml_other _ _ _ _ _ (by decide)]
    exact nmlLookup_patchNml_self _ _ _ _
  · exact nmlLookup_patchNml_self _ _ _ _

/-! ## Claim C6 -/

theorem runValues_ensemble_grows (ctx : Ctx) (fname group pname : Str)
    (vs : List Value) (st : RunState) :
    ∃ extra, (runValues ctx fname group pname vs st).2.ensemble
      = st.ensemble ++ extra := by
  induction vs generalizing st with
  | nil => exact ⟨[], by simp [runValues]⟩
  | cons v rest ih =>
    unfold runValues
    cases hr : (buildVariant ctx fname group pname v st.syncdir st.fs).result with
    | error e =>
      simp [hr]
    | ok o =>
      simp only [hr]
      obtain ⟨extra, he⟩ := ih ⟨_, _, st.ensemble ++ (if (buildVariant ctx fname group pname v st.syncdir st.fs).contributed then [exppathOf ctx pname v] else [])⟩
      refine ⟨(if (buildVariant ctx fname group pname v st.syncdir st.fs).contributed then [exppathOf ctx pname v] else []) ++ extra, ?_⟩
      rw [← List.append_assoc]
      exact he

/-- C6: a variant whose target directory already exists terminates
immediately as AlreadyExists with no further work (the state is returned
unchanged: no clone, no patch, no commit), and its path is still appended
to the result list used by run reconciliation. -/
theorem already_exists_short_circuit (ctx : Ctx) (fname group pname : Str)
    (v : Value) (sdPrev : Option Str) (fs : FS)
    (h : fsExists fs (exppathOf ctx pname v) = true) :
    buildVariant ctx fname group pname v sdPrev fs
        = ⟨.ok .alreadyExists, sdPrev, fs, true⟩
    ∧ ∀ (vs : List Value) (ens : List Str),
        exppathOf ctx pname v ∈
          (runValues ctx fname group pname (v :: vs) ⟨fs, sdPrev, ens⟩).2.ensemble := by
  have hb : buildVariant ctx fname group pname v sdPrev fs
      = ⟨.ok .alreadyExists, sdPrev, fs, true⟩ := by
    unfold buildVariant
    simp [h]
  refine ⟨hb, ?_⟩
  intro vs ens
  unfold runValues
  rw [hb]
  show exppathOf ctx pname v ∈
    (runValues ctx fname group pname vs
      ⟨fs, sdPrev, ens ++ [exppathOf ctx pname v]⟩).2.ensemble
  obtain ⟨extra, he⟩ := runValues_ensemble_grows ctx fname group pname vs
    ⟨fs, sdPrev, ens ++ [exppathOf ctx pname v]⟩
  rw [he]
  simp

/-- Witness: the C6 theorem applied at a concrete state whose target
directory exists. -/
theorem already_exists_short_circuit_witness :
    buildVariant ⟨S "/w", S "tmpl", S "rest", fun _ => S "/scratch/work/x"⟩
        (S "atm.nml") (S "g") (S "p") (.vint 2) none
        ⟨[(S "/w/tmpl_p_2", .dir)]⟩
      = ⟨.ok .alreadyExists, none, ⟨[(S "/w/tmpl_p_2", .dir)]⟩, true⟩ :=
  (already_exists_short_circuit ⟨S "/w", S "tmpl", S "rest", fun _ => S "/scratch/work/x"⟩
    (S "atm.nml") (S "g") (S "p") (.vint 2) none ⟨[(S "/w/tmpl_p_2", .dir)]⟩ (by decide)).1

/-! ## Claim C4 -/

/-- C4 counterexample: at this concrete state the requested value equals
the template's current value for (file, group, name) under exact equality
- the claim's hypothesis, witnessed by `skipCheck` returning `ok true` -
yet the variant terminates as AlreadyExists, not IdenticalToTemplate, and
its path IS added to the result set, because the existence check of lines
69-72 runs before the no-op detection.  This refutes the claim as stated. -/
theorem identical_to_template_cex :
    skipCheck [(S "g", [(S "p", Value.vint 1)])]
        (isTurningAngle (S "atm.nml") (S "g") (S "p")) (S "g") (S "p") (Value.vint 1)
      = .ok true
    ∧ (buildVariant ⟨S "/w", S "tmpl", S "rest", fun _ => S "/w/work"⟩
        (S "atm.nml") (S "g") (S "p") (Value.vint 1) none
        ⟨[(S "/w/tmpl_p_1", .dir), (S "/w/tmpl", .dir),
          (S "/w/tmpl/atm.nml", .nml [(S "g", [(S "p", Value.vint 1)])])]⟩).result
      = .ok .alreadyExists
    ∧ (buildVariant ⟨S "/w", S "tmpl", S "rest", fun _ => S "/w/work"⟩
        (S "atm.nml") (S "g") (S "p") (Value.vint 1) none
        ⟨[(S "/w/tmpl_p_1", .dir), (S "/w/tmpl", .dir),
          (S "/w/tmpl/atm.nml", .nml [(S "g", [(S "p", Value.vint 1)])])]⟩).contributed
      = true := by
  exact ⟨rfl, rfl, rfl⟩

/-- C4 (amended): for every axis value whose target directory does not
already exist and whose requested value equals the template's current
value for (file, group, name) under the language's native exact equality
(for the turning-angle axis: both cosw and sinw match), the variant
terminates as IdenticalToTemplate: the filesystem is returned unchanged
(no directory created, no clone) and no path is contributed. -/
theorem identical_to_template_noop (ctx : Ctx) (fname group pname : Str)
    (v : Value) (sdPrev : Option Str) (fs : FS) (tnml : Nml)
    (hne : fsExists fs (exppathOf ctx pname v) = false)
    (ht : fsLookup fs (pyJoin (templatepathOf ctx) fname) = some (.nml tnml))
    (hskip : skipCheck tnml (isTurningAngle fname group pname) group pname v = .ok true) :
    buildVariant ctx fname group pname v sdPrev fs
      = ⟨.ok .identicalToTemplate, sdPrev, fs, false⟩ := by
  unfold buildVariant
  simp [hne, ht, hskip]

/-- Witness: the amended C4 theorem applied at a concrete state (fresh
target, template value equal to the requested value). -/
theorem identical_to_template_noop_witness :
    buildVariant ⟨S "/w", S "tmpl", S "rest", fun _ => S "/w/work"⟩
        (S "atm.nml") (S "g") (S "p") (Value.vint 1) none
        ⟨[(S "/w/tmpl", .dir),
          (S "/w/tmpl/atm.nml", .nml [(S "g", [(S "p", Value.vint 1)])])]⟩
      = ⟨.ok .identicalToTemplate, none,
          ⟨[(S "/w/tmpl", .dir),
            (S "/w/tmpl/atm.nml", .nml [(S "g", [(S "p", Value.vint 1)])])]⟩, false⟩ :=
  identical_to_template_noop ⟨S "/w", S "tmpl", S "rest", fun _ => S "/w/work"⟩
    (S "atm.nml") (S "g") (S "p") (Value.vint 1) none
    ⟨[(S "/w/tmpl", .dir),
      (S "/w/tmpl/atm.nml", .nml [(S "g", [(S "p", Value.vint 1)])])]⟩
    [(S "g", [(S "p", Value.vint 1)])] (by decide) (by decide) (by rfl)

/-! ## More path and clone lemmas -/

theorem strStarts_mono (p s t : Str) (h : strStarts p s = true) :
    strStarts p (s ++ t) = true := by
  rw [strStarts_iff] at h ⊢
  exact h.trans (List.prefix_append s t)

theorem pyJoin_clean (a r : Str) (hcl : joinPre a = a ++ ['/'])
    (hr : strStarts (S "/") r = false) : pyJoin a r = a ++ '/' :: r := by
  rw [pyJoin_rel a r hr, hcl]
  simp

theorem fsLookup_cloneTree_far (fs : FS) (src dst q : Str) (h1 : q ≠ dst)
    (h2 : strStarts (dst ++ S "/") q = false) :
    fsLookup (cloneTree fs src dst) q = fsLookup fs q := by
  unfold fsLookup cloneTree
  rw [alookup, if_neg (by simpa using Ne.symm h1)]
  rw [alookup_append]
  have hcop : alookup (fs.entries.filterMap (fun pe =>
      if strStarts (src ++ S "/") pe.1 then
        some (dst ++ S "/" ++ pe.1.drop (src.length + 1), pe.2)
      else none)) q = none := by
    apply alookup_eq_none_of_all
    intro pe hpe
    obtain ⟨qe, hqe, hmk⟩ := List.mem_filterMap.mp hpe
    by_cases hs : strStarts (src ++ S "/") qe.1 = true
    · rw [if_pos hs] at hmk
      intro hk
      have : strStarts (dst ++ S "/") pe.1 = true := by
        rw [← Option.some.injEq] at hmk
        have h3 : pe.1 = dst ++ S "/" ++ qe.1.drop (src.length + 1) := by
          cases hmk
          rfl
        rw [h3]
        have : dst ++ S "/" ++ qe.1.drop (src.length + 1)
            = (dst ++ S "/") ++ qe.1.drop (src.length + 1) := by simp
        rw [this]
        exact strStarts_append _ _
      rw [hk] at this
      rw [this] at h2
      exact Bool.noConfusion h2
    · rw [if_neg hs] at hmk
      exact absurd hmk (by simp)
  rw [hcop]
  exact alookup_filter_keep _ _ _ (fun a => by simp [h1])

theorem fsExists_cloneTree_far (fs : FS) (src dst q : Str) (h1 : q ≠ dst)
    (h2 : strStarts (dst ++ S "/") q = false) :
    fsExists (cloneTree fs src dst) q = fsExists fs q := by
  simp [fsExists, fsLookup_cloneTree_far fs src dst q h1 h2]

/-! ## Reduction of a build attempt to its SYNCDIR step -/

theorem fsLookup_nmlPatchFiles_far (t : Bool) (fs : FS) (fpath : Str) (orig : Nml)
    (group pname : Str) (v : Value) (q : Str)
    (h1 : q ≠ fpath) (h2 : q ≠ fpath ++ S "_tmp") (h3 : q ≠ fpath ++ S "_tmp2") :
    fsLookup (nmlPatchFiles t fs fpath orig group pname v) q = fsLookup fs q := by
  unfold nmlPatchFiles
  cases t with
  | false =>
    simp only [Bool.false_eq_true, if_false]
    rw [fsLookup_fsRename _ _ _ _ h2 h1]
    rw [fsLookup_fsSet, if_neg h2]
  | true =>
    simp only [if_true]
    rw [fsLookup_fsRename _ _ _ _ h2 h1]
    rw [fsLookup_fsRemove, if_neg h3]
    rw [fsLookup_fsSet, if_neg h2]
    rw [fsLookup_fsSet, if_neg h3]

theorem fsLookup_nmlPatchFiles_self (t : Bool) (fs : FS) (fpath : Str) (orig : Nml)
    (group pname : Str) (v : Value) :
    fsLookup (nmlPatchFiles t fs fpath orig group pname v) fpath
      = some (.nml (patchedNml t orig group pname v)) := by
  have hts : fpath ++ S "_tmp" ≠ fpath := append_ne_self _ _ (by decide)
  have ht2 : ¬ (fpath ++ S "_tmp" = fpath ++ S "_tmp2") := by simp [S]
  unfold nmlPatchFiles
  cases t with
  | false =>
    simp only [Bool.false_eq_true, if_false]
    unfold fsRename
    rw [fsLookup_fsSet, if_pos rfl]
    rw [fsLookup_fsSet, if_pos rfl]
    unfold patchedNml
    simp
  | true =>
    simp only [if_true]
    unfold fsRename
    rw [fsLookup_fsRemove, if_neg ht2]
    rw [fsLookup_fsSet, if_pos rfl]
    rw [fsLookup_fsSet, if_pos rfl]
    unfold patchedNml
    simp

theorem buildVariant_reach_sync (ctx : Ctx) (fname group pname : Str) (v : Value)
    (sdPrev : Option Str) (fs : FS) (tnml : Nml) (slines : List Str)
    (hfrel : strStarts (S "/") fname = false)
    (hfsd : fname ≠ S "sync_data.sh")
    (hclx : joinPre (exppathOf ctx pname v) = exppathOf ctx pname v ++ ['/'])
    (hclt : joinPre (templatepathOf ctx) = templatepathOf ctx ++ ['/'])
    (hne : fsExists fs (exppathOf ctx pname v) = false)
    (hj : noEntriesUnder fs (exppathOf ctx pname v))
    (ht : fsLookup fs (pyJoin (templatepathOf ctx) fname) = some (.nml tnml))
    (hskip : skipCheck tnml (isTurningAngle fname group pname) group pname v = .ok false)
    (hdirty : patchedNml (isTurningAngle fname group pname) tnml group pname v ≠ tnml)
    (hsync : fsLookup fs (pyJoin (templatepathOf ctx) (S "sync_data.sh"))
      = some (.text slines)) :
    buildVariant ctx fname group pname v sdPrev fs =
      (let xp := exppathOf ctx pname v
       let tng := isTurningAngle fname group pname
       let sw := syncRewrite (expnameOf ctx pname v) slines sdPrev
       let fs2 := nmlPatchFiles tng
         (cloneTree fs (templatepathOf ctx) xp) (pyJoin xp fname) tnml group pname v
       let sdp := pyJoin xp (S "sync_data.sh")
       let fs4 := fsRename (fsSet fs2 (sdp ++ S "_tmp") (.text sw.1)) (sdp ++ S "_tmp") sdp
       match sw.2 with
       | none => ⟨.error (.nameError (S "syncdir")), sdPrev, fs4, false⟩
       | some syncdir =>
         if fsExists fs4 syncdir then
           ⟨.ok .discardedSyncConflict, some syncdir, fsRmtree fs4 xp, false⟩
         else
           if ctx.startfrom ≠ S "rest" then
             match restartPhase ctx fs4 xp with
             | .conflict fsA =>
               ⟨.ok .discardedArchiveConflict, some syncdir, fsRmtree fsA xp, false⟩
             | .fail e fsX => ⟨.error e, some syncdir, fsX, false⟩
             | .done fsD rp =>
               finishVariant ctx fname group pname v tng xp (some rp) (some syncdir) fsD
           else
             finishVariant ctx fname group pname v tng xp none (some syncdir) fs4) := by
  have hxf : pyJoin (exppathOf ctx pname v) fname
      = exppathOf ctx pname v ++ '/' :: fname := pyJoin_clean _ _ hclx hfrel
  have htf : pyJoin (templatepathOf ctx) fname
      = templatepathOf ctx ++ '/' :: fname := pyJoin_clean _ _ hclt hfrel
  have hxs : pyJoin (exppathOf ctx pname v) (S "sync_data.sh")
      = exppathOf ctx pname v ++ '/' :: S "sync_data.sh" :=
    pyJoin_clean _ _ hclx (by decide)
  have hts : pyJoin (templatepathOf ctx) (S "sync_data.sh")
      = templatepathOf ctx ++ '/' :: S "sync_data.sh" :=
    pyJoin_clean _ _ hclt (by decide)
  have hlf : fsLookup (cloneTree fs (templatepathOf ctx) (exppathOf ctx pname v))
      (pyJoin (exppathOf ctx pname v) fname) = some (.nml tnml) := by
    rw [hxf, fsLookup_cloneTree_under fs _ _ _ hj]
    rw [← htf]
    exact ht
  have hls1 : fsLookup (cloneTree fs (templatepathOf ctx) (exppathOf ctx pname v))
      (pyJoin (exppathOf ctx pname v) (S "sync_data.sh")) = some (.text slines) := by
    rw [hxs, fsLookup_cloneTree_under fs _ _ _ hj]
    rw [← hts]
    exact hsync
  have hne1 : pyJoin (exppathOf ctx pname v) (S "sync_data.sh")
      ≠ pyJoin (exppathOf ctx pname v) fname := by
    rw [hxs, hxf]
    simp
    exact fun h => hfsd h.symm
  have hne2 : pyJoin (exppathOf ctx pname v) (S "sync_data.sh")
      ≠ pyJoin (exppathOf ctx pname v) fname ++ S "_tmp" := by
    rw [hxs, hxf]
    intro h
    have h2 : S "sync_data.sh" = fname ++ S "_tmp" := by simpa using h
    have h3 := congrArg List.reverse h2
    simp [S] at h3
  have hne3 : pyJoin (exppathOf ctx pname v) (S "sync_data.sh")
      ≠ pyJoin (exppathOf ctx pname v) fname ++ S "_tmp2" := by
    rw [hxs, hxf]
    intro h
    have h2 : S "sync_data.sh" = fname ++ S "_tmp2" := by simpa using h
    have h3 := congrArg List.reverse h2
    simp [S] at h3
  have hls2 : fsLookup (nmlPatchFiles (isTurningAngle fname group pname)
      (cloneTree fs (templatepathOf ctx) (exppathOf ctx pname v))
      (pyJoin (exppathOf ctx pname v) fname) tnml group pname v)
      (pyJoin (exppathOf ctx pname v) (S "sync_data.sh")) = some (.text slines) := by
    rw [fsLookup_nmlPatchFiles_far _ _ _ _ _ _ _ _ hne1 hne2 hne3]
    exact hls1
  unfold buildVariant
  simp only [hne, Bool.false_eq_true, if_false, ht, hskip, hlf, hls2, hdirty]

/-! ## Lookups preserved by the finishing steps -/

theorem finishVariant_far_lookup (ctx : Ctx) (fname group pname : Str) (v : Value)
    (tng : Bool) (xp : Str) (rp : Option Str) (sd : Option Str) (fs : FS) (q : Str)
    (out : BuildOut)
    (hq1 : q ≠ pyJoin xp (S "config.yaml"))
    (hq2 : q ≠ pyJoin xp (S "config.yaml") ++ S "_tmp")
    (hq3 : q ≠ pyJoin xp (S "metadata.yaml"))
    (hq4 : childName xp q = none ∨
      ∃ n, childName xp q = some n ∧ strStarts (S "run_summary_") n = false)
    (hout : finishVariant ctx fname group pname v tng xp rp sd fs = out)
    (hcom : out.result = .ok .committed) :
    fsLookup out.fs q = fsLookup fs q := by
  unfold finishVariant at hout
  simp only [] at hout
  split at hout
  next clines heq =>
    split at hout
    next desc notes keywords heq2 =>
      subst hout
      have hstep1 : fsLookup (fsRename (fsSet fs
          (pyJoin xp (S "config.yaml") ++ S "_tmp")
          (.text (jobnameRewrite pname v clines)))
          (pyJoin xp (S "config.yaml") ++ S "_tmp") (pyJoin xp (S "config.yaml"))) q
          = fsLookup fs q := by
        rw [fsLookup_fsRename _ _ _ _ hq2 hq1]
        rw [fsLookup_fsSet, if_neg hq2]
      have hkeep : ∀ (l : List (Str × Entry)),
          alookup (l.filter (fun pe =>
            match childName xp pe.1 with
            | some n => ¬ (strStarts (S "run_summary_") n ∧ (S ".csv").isSuffixOf n)
            | none => true)) q = alookup l q := by
        intro l
        apply alookup_filter_keep
        intro a
        rcases hq4 with h | ⟨n, hn, hrs⟩
        · simp [h]
        · simp [hn, hrs]
      show alookup _ q = _
      rw [hkeep]
      show fsLookup (fsSet _ (pyJoin xp (S "metadata.yaml")) _) q = _
      rw [fsLookup_fsSet, if_neg hq3]
      exact hstep1
    next heq2 =>
      rw [← hout] at hcom
      exact absurd hcom (by simp)
  next heq =>
    rw [← hout] at hcom
    exact absurd hcom (by simp)

theorem ne_of_far (u p d : Str) (hp : strStarts u p = true)
    (hd : strStarts u d = false) : d ≠ p := by
  intro he
  rw [he, hp] at hd
  exact Bool.noConfusion hd

theorem fsRename_lookup_dst (fs : FS) (src dst : Str) (e : Entry)
    (h : fsLookup fs src = some e) :
    fsLookup (fsRename fs src dst) dst = some e := by
  unfold fsRename
  rw [h]
  rw [fsLookup_fsSet, if_pos rfl]

theorem fsExists_nmlPatchFiles_far (t : Bool) (fs : FS) (fpath : Str) (orig : Nml)
    (group pname : Str) (v : Value) (q : Str)
    (h1 : q ≠ fpath) (h2 : q ≠ fpath ++ S "_tmp") (h3 : q ≠ fpath ++ S "_tmp2") :
    fsExists (nmlPatchFiles t fs fpath orig group pname v) q = fsExists fs q := by
  simp [fsExists, fsLookup_nmlPatchFiles_far t fs fpath orig group pname v q h1 h2 h3]

/-- C1 (amended): for every variant that reaches the SyncConfigure step,
every line starting with `SYNCDIR=` is rewritten so that the new sync
destination is the DIRNAME of the template's configured sync directory
(its final path component is dropped) with the variant's directory
basename appended - not the configured directory itself with the basename
appended; the rewritten file is what a committed variant carries; and if
the resulting destination already exists on disk, the variant directory is
deleted, the attempt ends as DiscardedSyncConflict, and the path is not
contributed to the result set. -/
theorem sync_configure_rewrite
    (ctx : Ctx) (fname group pname : Str) (v : Value) (sdPrev : Option Str)
    (fs : FS) (tnml : Nml) (slines : List Str)
    (hfrel : strStarts (S "/") fname = false)
    (hfsd : fname ≠ S "sync_data.sh")
    (hclx : joinPre (exppathOf ctx pname v) = exppathOf ctx pname v ++ ['/'])
    (hclt : joinPre (templatepathOf ctx) = templatepathOf ctx ++ ['/'])
    (hne : fsExists fs (exppathOf ctx pname v) = false)
    (hj : noEntriesUnder fs (exppathOf ctx pname v))
    (ht : fsLookup fs (pyJoin (templatepathOf ctx) fname) = some (.nml tnml))
    (hskip : skipCheck tnml (isTurningAngle fname group pname) group pname v = .ok false)
    (hdirty : patchedNml (isTurningAngle fname group pname) tnml group pname v ≠ tnml)
    (hsync : fsLookup fs (pyJoin (templatepathOf ctx) (S "sync_data.sh"))
      = some (.text slines)) :
    (syncRewrite (expnameOf ctx pname v) slines sdPrev).1
      = slines.map (fun l =>
          if strStarts (S "SYNCDIR=") l then
            S "SYNCDIR=" ++ pyJoin (pyDirname (l.drop 8)) (expnameOf ctx pname v)
          else l)
    ∧ (ctx.startfrom = S "rest" →
       (buildVariant ctx fname group pname v sdPrev fs).result = .ok .committed →
       fsLookup (buildVariant ctx fname group pname v sdPrev fs).fs
           (pyJoin (exppathOf ctx pname v) (S "sync_data.sh"))
         = some (.text (syncRewrite (expnameOf ctx pname v) slines sdPrev).1))
    ∧ (∀ d, (syncRewrite (expnameOf ctx pname v) slines sdPrev).2 = some d →
        d ≠ exppathOf ctx pname v →
        strStarts (exppathOf ctx pname v ++ S "/") d = false →
        fsExists fs d = true →
        (buildVariant ctx fname group pname v sdPrev fs).result
            = .ok .discardedSyncConflict
        ∧ fsExists (buildVariant ctx fname group pname v sdPrev fs).fs
            (exppathOf ctx pname v) = false
        ∧ (buildVariant ctx fname group pname v sdPrev fs).contributed = false) := by
  have hred := buildVariant_reach_sync ctx fname group pname v sdPrev fs tnml slines
    hfrel hfsd hclx hclt hne hj ht hskip hdirty hsync
  have hxs : pyJoin (exppathOf ctx pname v) (S "sync_data.sh")
      = exppathOf ctx pname v ++ '/' :: S "sync_data.sh" :=
    pyJoin_clean _ _ hclx (by decide)
  have hxf : pyJoin (exppathOf ctx pname v) fname
      = exppathOf ctx pname v ++ '/' :: fname := pyJoin_clean _ _ hclx hfrel
  have hxc : pyJoin (exppathOf ctx pname v) (S "config.yaml")
      = exppathOf ctx pname v ++ '/' :: S "config.yaml" :=
    pyJoin_clean _ _ hclx (by decide)
  have hxm : pyJoin (exppathOf ctx pname v) (S "metadata.yaml")
      = exppathOf ctx pname v ++ '/' :: S "metadata.yaml" :=
    pyJoin_clean _ _ hclx (by decide)
  have hu_sdp : strStarts (exppathOf ctx pname v ++ S "/")
      (pyJoin (exppathOf ctx pname v) (S "sync_data.sh")) = true := by
    rw [hxs, S_slash]
    exact strStarts_cons_append _ '/' _
  have hu_f : strStarts (exppathOf ctx pname v ++ S "/")
      (pyJoin (exppathOf ctx pname v) fname) = true := by
    rw [hxf, S_slash]
    exact strStarts_cons_append _ '/' _
  have hq1 : pyJoin (exppathOf ctx pname v) (S "sync_data.sh")
      ≠ pyJoin (exppathOf ctx pname v) (S "config.yaml") := by
    rw [hxs, hxc]
    intro h
    have h2 : S "sync_data.sh" = S "config.yaml" := by simpa using h
    exact absurd h2 (by decide)
  have hq2 : pyJoin (exppathOf ctx pname v) (S "sync_data.sh")
      ≠ pyJoin (exppathOf ctx pname v) (S "config.yaml") ++ S "_tmp" := by
    rw [hxs, hxc]
    intro h
    have h2 : S "sync_data.sh" = S "config.yaml" ++ S "_tmp" := by simpa using h
    exact absurd h2 (by decide)
  have hq3 : pyJoin (exppathOf ctx pname v) (S "sync_data.sh")
      ≠ pyJoin (exppathOf ctx pname v) (S "metadata.yaml") := by
    rw [hxs, hxm]
    intro h
    have h2 : S "sync_data.sh" = S "metadata.yaml" := by simpa using h
    exact absurd h2 (by decide)
  have hq4 : childName (exppathOf ctx pname v)
        (pyJoin (exppathOf ctx pname v) (S "sync_data.sh")) = none ∨
      ∃ n, childName (exppathOf ctx pname v)
          (pyJoin (exppathOf ctx pname v) (S "sync_data.sh")) = some n
        ∧ strStarts (S "run_summary_") n = false := by
    right
    refine ⟨S "sync_data.sh", ?_, by decide⟩
    rw [hxs, childName_of_append, if_pos (by decide)]
  refine ⟨syncRewrite_fst _ _ _, ?_, ?_⟩
  · intro hrest hcom
    rw [hred] at hcom ⊢
    simp only [] at hcom ⊢
    cases hsw : (syncRewrite (expnameOf ctx pname v) slines sdPrev).2 with
    | none =>
      rw [hsw] at hcom
      simp at hcom
    | some d =>
      rw [hsw] at hcom
      simp only [] at hcom ⊢
      by_cases hex : fsExists (fsRename (fsSet (nmlPatchFiles
          (isTurningAngle fname group pname)
          (cloneTree fs (templatepathOf ctx) (exppathOf ctx pname v))
          (pyJoin (exppathOf ctx pname v) fname) tnml group pname v)
          (pyJoin (exppathOf ctx pname v) (S "sync_data.sh") ++ S "_tmp")
          (.text (syncRewrite (expnameOf ctx pname v) slines sdPrev).1))
          (pyJoin (exppathOf ctx pname v) (S "sync_data.sh") ++ S "_tmp")
          (pyJoin (exppathOf ctx pname v) (S "sync_data.sh"))) d = true
      · rw [if_pos hex] at hcom
        simp at hcom
      · rw [if_neg hex] at hcom ⊢
        rw [hrest] at hcom ⊢
        rw [if_neg (by simp)] at hcom ⊢
        rw [finishVariant_far_lookup ctx fname group pname v _ _ _ _ _
          (pyJoin (exppathOf ctx pname v) (S "sync_data.sh")) _
          hq1 hq2 hq3 hq4 rfl hcom]
        apply fsRename_lookup_dst
        rw [fsLookup_fsSet, if_pos rfl]
  · intro d hsw hdx hdfar hdex
    have hd_sdp : d ≠ pyJoin (exppathOf ctx pname v) (S "sync_data.sh") :=
      ne_of_far _ _ _ hu_sdp hdfar
    have hd_sdpt : d ≠ pyJoin (exppathOf ctx pname v) (S "sync_data.sh") ++ S "_tmp" :=
      ne_of_far _ _ _ (strStarts_mono _ _ _ hu_sdp) hdfar
    have hd_f : d ≠ pyJoin (exppathOf ctx pname v) fname :=
      ne_of_far _ _ _ hu_f hdfar
    have hd_ft : d ≠ pyJoin (exppathOf ctx pname v) fname ++ S "_tmp" :=
      ne_of_far _ _ _ (strStarts_mono _ _ _ hu_f) hdfar
    have hd_ft2 : d ≠ pyJoin (exppathOf ctx pname v) fname ++ S "_tmp2" :=
      ne_of_far _ _ _ (strStarts_mono _ _ _ hu_f) hdfar
    have hex2 : fsExists (nmlPatchFiles (isTurningAngle fname group pname)
        (cloneTree fs (templatepathOf ctx) (exppathOf ctx pname v))
        (pyJoin (exppathOf ctx pname v) fname) tnml group pname v) d = true := by
      rw [fsExists_nmlPatchFiles_far _ _ _ _ _ _ _ _ hd_f hd_ft hd_ft2]
      rw [fsExists_cloneTree_far fs _ _ d hdx hdfar]
      exact hdex
    rw [hred]
    simp only []
    rw [hsw]
    simp only []
    have hex4 : fsExists (fsRename (fsSet (nmlPatchFiles (isTurningAngle fname group pname)
        (cloneTree fs (templatepathOf ctx) (exppathOf ctx pname v))
        (pyJoin (exppathOf ctx pname v) fname) tnml group pname v)
        (pyJoin (exppathOf ctx pname v) (S "sync_data.sh") ++ S "_tmp")
        (.text (syncRewrite (expnameOf ctx pname v) slines sdPrev).1))
        (pyJoin (exppathOf ctx pname v) (S "sync_data.sh") ++ S "_tmp")
        (pyJoin (exppathOf ctx pname v) (S "sync_data.sh"))) d = true := by
      rw [fsExists_fsRename _ _ _ _ hd_sdpt hd_sdp]
      rw [fsExists_fsSet]
      simp [hd_sdpt, hex2]
    rw [if_pos hex4]
    exact ⟨rfl, fsExists_fsRmtree_self _ _, rfl⟩




/-- C1 counterexample: with the template's configured sync directory
`/d/sync/tmpl` and variant basename `tmpl_p_2`, the clone's rewritten line
is `SYNCDIR=/d/sync/tmpl_p_2` - the basename REPLACES the final component
- whereas the claim's destination (the configured directory with the
basename appended) would be `/d/sync/tmpl/tmpl_p_2`. -/
theorem sync_destination_cex :
    fsLookup (buildVariant restCtx (S "atm.nml") (S "g") (S "p") (.vint 2) none tmplFS).fs
        (S "/w/tmpl_p_2/sync_data.sh")
      = some (.text [S "stuff", S "SYNCDIR=/d/sync/tmpl_p_2", S "more"])
    ∧ (buildVariant restCtx (S "atm.nml") (S "g") (S "p") (.vint 2) none tmplFS).result
      = .ok .committed
    ∧ S "/d/sync/tmpl_p_2" ≠ pyJoin (S "/d/sync/tmpl") (S "tmpl_p_2") := by
  refine ⟨rfl, rfl, by decide⟩

/-- Witness: the amended C1 theorem applied at a concrete state in which
the rewritten destination `/d/sync/tmpl_p_2` already exists, yielding
DiscardedSyncConflict with the variant directory deleted and nothing
contributed. -/
theorem sync_configure_rewrite_witness :
    (buildVariant restCtx (S "atm.nml") (S "g") (S "p") (.vint 2) none
        syncConflictFS).result = .ok .discardedSyncConflict
    ∧ fsExists (buildVariant restCtx (S "atm.nml") (S "g") (S "p") (.vint 2) none
        syncConflictFS).fs (S "/w/tmpl_p_2") = false
    ∧ (buildVariant restCtx (S "atm.nml") (S "g") (S "p") (.vint 2) none
        syncConflictFS).contributed = false := by
  exact (sync_configure_rewrite restCtx (S "atm.nml") (S "g") (S "p") (.vint 2) none
      syncConflictFS [(S "g", [(S "p", .vint 1)])]
      [S "stuff", S "SYNCDIR=/d/sync/tmpl", S "more"]
      (by decide) (by decide) (by decide) (by decide) (by decide)
      (by unfold noEntriesUnder; decide)
      (by decide) (by rfl) (by decide) (by decide)).2.2
    (S "/d/sync/tmpl_p_2") (by rfl) (by decide) (by decide) (by decide)

/-! ## Claim C9 -/


/-- C9: when the clone's `sync_data.sh` contains no line starting with
`SYNCDIR=` (and the function-level `syncdir` variable is still unbound,
which is the only reachable combination, since every clone copies the one
template's file), the attempt dies with an uncaught NameError on `syncdir`
at the destination-existence check of line 123; by then the clone and the
namelist patch have already succeeded, so the half-built variant directory
is left on disk (with its patched namelist) and nothing is contributed. -/
theorem sync_missing_nameerror
    (ctx : Ctx) (fname group pname : Str) (v : Value) (fs : FS) (tnml : Nml)
    (slines : List Str)
    (hfne : fname ≠ [])
    (hfrel : strStarts (S "/") fname = false)
    (hfsd : fname ≠ S "sync_data.sh")
    (hft : fname ≠ S "sync_data.sh_tmp")
    (hclx : joinPre (exppathOf ctx pname v) = exppathOf ctx pname v ++ ['/'])
    (hclt : joinPre (templatepathOf ctx) = templatepathOf ctx ++ ['/'])
    (hne : fsExists fs (exppathOf ctx pname v) = false)
    (hj : noEntriesUnder fs (exppathOf ctx pname v))
    (ht : fsLookup fs (pyJoin (templatepathOf ctx) fname) = some (.nml tnml))
    (hskip : skipCheck tnml (isTurningAngle fname group pname) group pname v = .ok false)
    (hdirty : patchedNml (isTurningAngle fname group pname) tnml group pname v ≠ tnml)
    (hsync : fsLookup fs (pyJoin (templatepathOf ctx) (S "sync_data.sh"))
      = some (.text slines))
    (hnolines : ∀ l ∈ slines, strStarts (S "SYNCDIR=") l = false) :
    (buildVariant ctx fname group pname v none fs).result
      = .error (.nameError (S "syncdir"))
    ∧ fsExists (buildVariant ctx fname group pname v none fs).fs
        (exppathOf ctx pname v) = true
    ∧ fsLookup (buildVariant ctx fname group pname v none fs).fs
        (pyJoin (exppathOf ctx pname v) fname)
      = some (.nml (patchedNml (isTurningAngle fname group pname) tnml group pname v))
    ∧ (buildVariant ctx fname group pname v none fs).contributed = false := by
  have hred := buildVariant_reach_sync ctx fname group pname v none fs tnml slines
    hfrel hfsd hclx hclt hne hj ht hskip hdirty hsync
  have hsw : (syncRewrite (expnameOf ctx pname v) slines none).2 = none :=
    syncRewrite_snd_unmatched _ _ _ hnolines
  have hxf : pyJoin (exppathOf ctx pname v) fname
      = exppathOf ctx pname v ++ '/' :: fname := pyJoin_clean _ _ hclx hfrel
  have hxs : pyJoin (exppathOf ctx pname v) (S "sync_data.sh")
      = exppathOf ctx pname v ++ '/' :: S "sync_data.sh" :=
    pyJoin_clean _ _ hclx (by decide)
  have hxp_ne_f : exppathOf ctx pname v ≠ pyJoin (exppathOf ctx pname v) fname :=
    (pyJoin_ne_self _ _ hfne hfrel).symm
  have hxp_ne_ft : exppathOf ctx pname v
      ≠ pyJoin (exppathOf ctx pname v) fname ++ S "_tmp" :=
    (pyJoin_append_ne_self _ _ _ hfne hfrel).symm
  have hxp_ne_ft2 : exppathOf ctx pname v
      ≠ pyJoin (exppathOf ctx pname v) fname ++ S "_tmp2" :=
    (pyJoin_append_ne_self _ _ _ hfne hfrel).symm
  have hxp_ne_s : exppathOf ctx pname v
      ≠ pyJoin (exppathOf ctx pname v) (S "sync_data.sh") :=
    (pyJoin_ne_self _ _ (by decide) (by decide)).symm
  have hxp_ne_st : exppathOf ctx pname v
      ≠ pyJoin (exppathOf ctx pname v) (S "sync_data.sh") ++ S "_tmp" :=
    (pyJoin_append_ne_self _ _ _ (by decide) (by decide)).symm
  have hf_ne_s : pyJoin (exppathOf ctx pname v) fname
      ≠ pyJoin (exppathOf ctx pname v) (S "sync_data.sh") := by
    intro h
    exact hfsd ((pyJoin_rel_inj _ _ _ hfrel (by decide)).mp h)
  have hf_ne_st : pyJoin (exppathOf ctx pname v) fname
      ≠ pyJoin (exppathOf ctx pname v) (S "sync_data.sh") ++ S "_tmp" := by
    rw [hxf, hxs]
    intro h
    have h2 : fname = S "sync_data.sh" ++ S "_tmp" := by simpa using h
    exact hft h2
  rw [hred]
  simp only []
  rw [hsw]
  simp only []
  refine ⟨trivial, ?_, ?_, trivial⟩
  · rw [fsExists_fsRename _ _ _ _ hxp_ne_st hxp_ne_s]
    rw [fsExists_fsSet]
    rw [fsExists_nmlPatchFiles_far _ _ _ _ _ _ _ _ hxp_ne_f hxp_ne_ft hxp_ne_ft2]
    rw [fsExists_cloneTree_self]
    simp
  · rw [fsLookup_fsRename _ _ _ _ hf_ne_st hf_ne_s]
    rw [fsLookup_fsSet, if_neg hf_ne_st]
    exact fsLookup_nmlPatchFiles_self _ _ _ _ _ _ _

/-- Witness: the C9 theorem applied at a concrete template without a
`SYNCDIR=` line. -/
theorem sync_missing_nameerror_witness :
    (buildVariant restCtx (S "atm.nml") (S "g") (S "p") (.vint 2) none noSyncFS).result
      = .error (.nameError (S "syncdir"))
    ∧ fsExists (buildVariant restCtx (S "atm.nml") (S "g") (S "p") (.vint 2) none
        noSyncFS).fs (exppathOf restCtx (S "p") (.vint 2)) = true
    ∧ fsLookup (buildVariant restCtx (S "atm.nml") (S "g") (S "p") (.vint 2) none
        noSyncFS).fs (pyJoin (exppathOf restCtx (S "p") (.vint 2)) (S "atm.nml"))
      = some (.nml (patchedNml (isTurningAngle (S "atm.nml") (S "g") (S "p"))
          [(S "g", [(S "p", .vint 1)])] (S "g") (S "p") (.vint 2)))
    ∧ (buildVariant restCtx (S "atm.nml") (S "g") (S "p") (.vint 2) none
        noSyncFS).contributed = false :=
  sync_missing_nameerror restCtx (S "atm.nml") (S "g") (S "p") (.vint 2) noSyncFS
    [(S "g", [(S "p", .vint 1)])] [S "stuff", S "more"]
    (by decide) (by decide) (by decide) (by decide) (by decide) (by decide)
    (by decide) (by unfold noEntriesUnder; decide) (by decide) (by rfl)
    (by decide) (by decide) (by decide)

/-! ## Claim C7 support -/

theorem strStarts_append_self_false (p t : Str) (ht : t ≠ []) :
    strStarts (p ++ t) p = false := by
  by_cases h : strStarts (p ++ t) p = true
  · exfalso
    have hl := ((strStarts_iff _ _).mp h).length_le
    simp at hl
    exact ht hl
  · simpa using h

theorem fsExists_fsSet_mono (fs : FS) (p : Str) (e : Entry) (q : Str)
    (h : fsExists fs q = true) : fsExists (fsSet fs p e) q = true := by
  rw [fsExists_fsSet]
  simp [h]

theorem restartPhase_done_mono (ctx : Ctx) (fs : FS) (xp : Str) (fsD : FS) (rp : Str)
    (hout : restartPhase ctx fs xp = .done fsD rp) (q : Str)
    (hq : fsExists fs q = true) : fsExists fsD q = true := by
  unfold restartPhase at hout
  simp only [] at hout
  all_goals try split at hout
  all_goals try split at hout
  all_goals try split at hout
  all_goals try split at hout
  all_goals try split at hout
  all_goals try (exfalso; exact RestartResult.noConfusion hout)
  all_goals injection hout with h1 h2
  all_goals subst h1
  all_goals (repeat apply fsExists_fsSet_mono)
  all_goals exact hq

theorem finishVariant_result_ok (ctx : Ctx) (fname group pname : Str) (v : Value)
    (tng : Bool) (xp : Str) (rp : Option Str) (sd : Option Str) (fs : FS)
    (out : BuildOut) (o : Outcome)
    (hout : finishVariant ctx fname group pname v tng xp rp sd fs = out)
    (h : out.result = .ok o) : o = .committed := by
  unfold finishVariant at hout
  simp only [] at hout
  split at hout
  next clines heq =>
    split at hout
    next desc notes keywords heq2 =>
      subst hout
      simp only [] at h
      injection h with h2
      exact h2.symm
    next heq2 =>
      subst hout
      exact absurd h (by simp)
  next heq =>
    subst hout
    exact absurd h (by simp)

theorem fsExists_fs4_xp (t : Bool) (fs : FS) (xp fname : Str) (orig : Nml)
    (group pname : Str) (v : Value) (content : Entry)
    (hfne : fname ≠ []) (hfrel : strStarts (S "/") fname = false)
    (hx : fsExists fs xp = true) :
    fsExists (fsRename (fsSet (nmlPatchFiles t fs (pyJoin xp fname) orig group pname v)
      (pyJoin xp (S "sync_data.sh") ++ S "_tmp") content)
      (pyJoin xp (S "sync_data.sh") ++ S "_tmp") (pyJoin xp (S "sync_data.sh"))) xp
      = true := by
  have h1 : xp ≠ pyJoin xp (S "sync_data.sh") ++ S "_tmp" :=
    (pyJoin_append_ne_self _ _ _ (by decide) (by decide)).symm
  have h2 : xp ≠ pyJoin xp (S "sync_data.sh") :=
    (pyJoin_ne_self _ _ (by decide) (by decide)).symm
  have h3 : xp ≠ pyJoin xp fname := (pyJoin_ne_self _ _ hfne hfrel).symm
  have h4 : xp ≠ pyJoin xp fname ++ S "_tmp" :=
    (pyJoin_append_ne_self _ _ _ hfne hfrel).symm
  have h5 : xp ≠ pyJoin xp fname ++ S "_tmp2" :=
    (pyJoin_append_ne_self _ _ _ hfne hfrel).symm
  rw [fsExists_fsRename _ _ _ _ h1 h2]
  rw [fsExists_fsSet]
  rw [fsExists_nmlPatchFiles_far _ _ _ _ _ _ _ _ h3 h4 h5]
  simp [hx]

/-- C7 (amended): every variant-build attempt that ends in a terminal
state (rather than dying with an uncaught exception) ends in exactly one
such state, and - for a nonempty relative namelist file path - the variant
directory exists afterwards exactly when that state is Committed or
AlreadyExists; in all three Discarded outcomes the directory has been
deleted. -/
theorem variant_persistence (ctx : Ctx) (fname group pname : Str) (v : Value)
    (sdPrev : Option Str) (fs : FS) (o : Outcome)
    (hfne : fname ≠ []) (hfrel : strStarts (S "/") fname = false)
    (h : (buildVariant ctx fname group pname v sdPrev fs).result = .ok o) :
    fsExists (buildVariant ctx fname group pname v sdPrev fs).fs (exppathOf ctx pname v)
      = (decide (o = .committed) || decide (o = .alreadyExists)) := by
  have hq1 : exppathOf ctx pname v ≠ pyJoin (exppathOf ctx pname v) (S "config.yaml") :=
    (pyJoin_ne_self _ _ (by decide) (by decide)).symm
  have hq2 : exppathOf ctx pname v
      ≠ pyJoin (exppathOf ctx pname v) (S "config.yaml") ++ S "_tmp" :=
    (pyJoin_append_ne_self _ _ _ (by decide) (by decide)).symm
  have hq3 : exppathOf ctx pname v ≠ pyJoin (exppathOf ctx pname v) (S "metadata.yaml") :=
    (pyJoin_ne_self _ _ (by decide) (by decide)).symm
  have hq4 : childName (exppathOf ctx pname v) (exppathOf ctx pname v) = none ∨
      ∃ n, childName (exppathOf ctx pname v) (exppathOf ctx pname v) = some n
        ∧ strStarts (S "run_summary_") n = false :=
    Or.inl (childName_none_of_far _ _ (strStarts_append_self_false _ _ (by decide)))
  rcases hbv : buildVariant ctx fname group pname v sdPrev fs with ⟨res, sd1, fs1, c1⟩
  rw [hbv] at h
  simp only [] at h ⊢
  unfold buildVariant at hbv
  simp only [] at hbv
  all_goals try split at hbv
  all_goals try split at hbv
  all_goals try split at hbv
  all_goals try split at hbv
  all_goals try split at hbv
  all_goals try split at hbv
  all_goals try split at hbv
  all_goals try split at hbv
  all_goals try split at hbv
  all_goals try split at hbv
  all_goals try (injection hbv with h1 h2 h3 h4
                 subst h1
                 subst h2
                 subst h3
                 subst h4)
  all_goals try (exfalso; exact Except.noConfusion h)
  all_goals try (injection h with ho
                 subst ho)
  all_goals try (simp_all [fsExists_fsRmtree_self])
  · rename_i hrp
    have hoc : o = .committed :=
      finishVariant_result_ok _ _ _ _ _ _ _ _ _ _ _ _ hbv rfl
    subst hoc
    have hrhs : (decide (Outcome.committed = Outcome.committed)
        || decide (Outcome.committed = Outcome.alreadyExists)) = true := by decide
    rw [hrhs]
    have hpres := finishVariant_far_lookup _ _ _ _ _ _ _ _ _ _
      (exppathOf ctx pname v) _ hq1 hq2 hq3 hq4 hbv rfl
    simp only [] at hpres
    show (fsLookup fs1 (exppathOf ctx pname v)).isSome = true
    rw [hpres]
    exact restartPhase_done_mono _ _ _ _ _ hrp (exppathOf ctx pname v)
      (fsExists_fs4_xp _ _ _ _ _ _ _ _ _ hfne hfrel (fsExists_cloneTree_self _ _ _))
  · have hoc : o = .committed :=
      finishVariant_result_ok _ _ _ _ _ _ _ _ _ _ _ _ hbv rfl
    subst hoc
    have hrhs : (decide (Outcome.committed = Outcome.committed)
        || decide (Outcome.committed = Outcome.alreadyExists)) = true := by decide
    rw [hrhs]
    have hpres := finishVariant_far_lookup _ _ _ _ _ _ _ _ _ _
      (exppathOf ctx pname v) _ hq1 hq2 hq3 hq4 hbv rfl
    simp only [] at hpres
    show (fsLookup fs1 (exppathOf ctx pname v)).isSome = true
    rw [hpres]
    exact fsExists_fs4_xp _ _ _ _ _ _ _ _ _ hfne hfrel (fsExists_cloneTree_self _ _ _)

/-- C7 counterexample: this concrete build attempt (template without a
SYNCDIR= line) ends in no terminal state at all - it dies with an uncaught
NameError - and the variant directory nevertheless persists on disk,
refuting the claim that every attempt ends in exactly one terminal state
with the directory persisting only for Committed/AlreadyExists. -/
theorem variant_persistence_cex :
    (buildVariant restCtx (S "atm.nml") (S "g") (S "p") (.vint 3) none noSyncFS).result
      = .error (.nameError (S "syncdir"))
    ∧ fsExists (buildVariant restCtx (S "atm.nml") (S "g") (S "p") (.vint 3) none
        noSyncFS).fs (S "/w/tmpl_p_3") = true := by
  exact ⟨rfl, rfl⟩

/-- Witness: the amended C7 theorem applied at a concrete sync-conflict
state, whose Discarded outcome leaves no directory behind. -/
theorem variant_persistence_witness :
    fsExists (buildVariant restCtx (S "atm.nml") (S "g") (S "p") (.vint 2) none
        syncConflictFS).fs (exppathOf restCtx (S "p") (.vint 2))
      = (decide (Outcome.discardedSyncConflict = .committed)
        || decide (Outcome.discardedSyncConflict = .alreadyExists)) :=
  variant_persistence restCtx (S "atm.nml") (S "g") (S "p") (.vint 2) none
    syncConflictFS .discardedSyncConflict (by decide) (by decide) (by rfl)

/-! ## Claim C2 -/


theorem reconcile_mem_path (fs : FS) (nruns : Int) (l : List Str)
    (pr : Str × Int) (h : pr ∈ reconcile fs nruns l) : pr.1 ∈ l := by
  induction l with
  | nil => simp [reconcile] at h
  | cons q rest ih =>
    unfold reconcile at h
    rw [List.mem_append] at h
    rcases h with h | h
    · by_cases hc : 0 < nruns - ((countOutputs fs q : Int) - 1)
      · rw [if_pos hc] at h
        simp at h
        rw [h]
        simp
      · rw [if_neg hc] at h
        simp at h
    · simp [ih h]

theorem mem_reconcile_iff (fs : FS) (nruns : Int) (ens : List Str) (p : Str)
    (hp : p ∈ ens) :
    ((p, nruns - ((countOutputs fs p : Int) - 1)) ∈ reconcile fs nruns ens
      ↔ 0 < nruns - ((countOutputs fs p : Int) - 1)) := by
  induction ens with
  | nil => simp at hp
  | cons q rest ih =>
    unfold reconcile
    rw [List.mem_append]
    constructor
    · intro h
      rcases h with h | h
      · by_cases hc : 0 < nruns - ((countOutputs fs q : Int) - 1)
        · rw [if_pos hc] at h
          simp at h
          rw [h.1]
          exact hc
        · rw [if_neg hc] at h
          simp at h
      · have hpr := reconcile_mem_path fs nruns rest _ h
        simp at hpr
        exact (ih hpr).mp h
    · intro hc
      rcases List.mem_cons.mp hp with he | hm
      · subst he
        left
        rw [if_pos hc]
        simp
      · right
        exact (ih hm).mpr hc

/-- C2 counterexample: with `nruns = 0` and a variant whose archive holds
no output directories, `remaining = 0 - (0 - 1) = 1 > 0`, yet no dispatch
occurs, because the whole reconciliation loop is guarded by
`if indata['nruns'] > 0` (line 215).  This refutes the claim that the
dispatch-iff rule holds for every non-negative nRuns including 0. -/
theorem reconcile_dispatch_cex :
    reconcileAll ⟨[]⟩ 0 [S "/w/e1"] = []
    ∧ (0 : Int) - ((countOutputs ⟨[]⟩ (S "/w/e1") : Int) - 1) > 0 := by
  exact ⟨rfl, by decide⟩

/-- C2 (amended): for every variant path in the result set, with
`doneRuns = k - 1` for `k` matching output directories and
`remaining = nRuns - doneRuns`, a run request for exactly `remaining`
cycles is dispatched if and only if `remaining > 0` - PROVIDED
`nRuns > 0`; when `nRuns <= 0` the reconciliation loop is skipped
entirely, so nothing is dispatched (and nothing is reported) even when
`remaining > 0`. -/
theorem reconcile_dispatch (fs : FS) (nruns : Int) (ens : List Str) (p : Str)
    (hp : p ∈ ens) :
    (0 < nruns →
      ((p, nruns - ((countOutputs fs p : Int) - 1)) ∈ reconcileAll fs nruns ens
        ↔ 0 < nruns - ((countOutputs fs p : Int) - 1)))
    ∧ (nruns ≤ 0 → reconcileAll fs nruns ens = []) := by
  constructor
  · intro hn
    unfold reconcileAll
    rw [if_pos hn]
    exact mem_reconcile_iff fs nruns ens p hp
  · intro hn
    unfold reconcileAll
    rw [if_neg (by omega)]

/-- Witness: the amended C2 theorem applied at a concrete state with one
variant, three output directories, `nruns = 2` (no dispatch: remaining is
0) - and the `nruns = 0` skip. -/
theorem reconcile_dispatch_witness :
    ((0 : Int) < 2 →
      (((S "/w/e1"), (2 : Int) - ((countOutputs outputsFS (S "/w/e1") : Int) - 1))
          ∈ reconcileAll outputsFS 2 [S "/w/e1"]
        ↔ (0 : Int) < 2 - ((countOutputs outputsFS (S "/w/e1") : Int) - 1)))
    ∧ ((2 : Int) ≤ 0 → reconcileAll outputsFS 2 [S "/w/e1"] = []) :=
  reconcile_dispatch outputsFS 2 [S "/w/e1"] (S "/w/e1") (by decide)

/-! ## Claim C3 -/



/-- C3 counterexample: loading a specification whose `startfrom` is
malformed (a YAML sequence) does NOT fail - `str()` coerces it to the
string `[1, 2]` - and the run proceeds to clone a variant directory, so
the run is not aborted before variants are touched. -/
theorem load_malformed_cex :
    loadSpec malformedDoc
      = .ok (S "tmpl", S "[1, 2]",
          [(S "atm.nml", .ymap [(S "g", .ymap [(S "p", .ylist [.yint 2])])])])
    ∧ fsExists (ensembleRun (S "/w") (fun _ => S "/scratch/work/x") malformedDoc
        tmplFS).fs (S "/w/tmpl_p_2") = true := by
  exact ⟨rfl, rfl⟩

/-- C3 (amended): when any of the required keys is absent, or `template`
is not a string, or `namelists` is not a mapping (or the document is not
a mapping at all), loading fails with an uncaught exception and the whole
run aborts before any variant is touched: the filesystem is unchanged,
the result set is empty and nothing is dispatched.  A malformed (but
present) `startfrom` is silently stringified and does not fail. -/
theorem load_required_keys (doc : YVal) (cwd : Str) (oracle : Str → Str) (fs : FS)
    (h : loadAborts doc = true) :
    (∃ e, loadSpec doc = .error e)
    ∧ (ensembleRun cwd oracle doc fs).fs = fs
    ∧ (ensembleRun cwd oracle doc fs).ensemble = []
    ∧ (ensembleRun cwd oracle doc fs).dispatches = []
    ∧ (ensembleRun cwd oracle doc fs).failure.isSome = true := by
  have key : ∀ e, loadSpec doc = .error e →
      (∃ e2, loadSpec doc = .error e2)
      ∧ (ensembleRun cwd oracle doc fs).fs = fs
      ∧ (ensembleRun cwd oracle doc fs).ensemble = []
      ∧ (ensembleRun cwd oracle doc fs).dispatches = []
      ∧ (ensembleRun cwd oracle doc fs).failure.isSome = true := by
    intro e hl
    refine ⟨⟨e, hl⟩, ?_, ?_, ?_, ?_⟩ <;>
      (unfold ensembleRun
       rw [hl])
    all_goals rfl

  cases doc with
  | yint n => exact key _ rfl
  | ystr s => exact key _ rfl
  | ylist l => exact key _ rfl
  | ymap m =>
    unfold loadAborts at h
    simp only [] at h
    cases ht : ylookup m (S "template") with
    | none =>
      exact key (.keyError (S "template")) (by unfold loadSpec; simp only []; rw [ht])
    | some tv =>
      cases tv with
      | ystr t =>
        rw [ht] at h
        simp only [] at h
        cases hs : ylookup m (S "startfrom") with
        | none =>
          exact key (.keyError (S "startfrom")) (by unfold loadSpec; simp only []; rw [ht, hs])
        | some sv =>
          rw [hs] at h
          simp only [Option.isNone_some, Bool.false_or] at h
          cases hn : ylookup m (S "namelists") with
          | none =>
            exact key (.keyError (S "namelists")) (by unfold loadSpec; simp only []; rw [ht, hs, hn])
          | some nv =>
            cases nv with
            | ymap nm =>
              rw [hn] at h
              simp at h
            | yint n2 =>
              exact key (.attributeError (S "items")) (by unfold loadSpec; simp only []; rw [ht, hs, hn])
            | ystr s2 =>
              exact key (.attributeError (S "items")) (by unfold loadSpec; simp only []; rw [ht, hs, hn])
            | ylist l2 =>
              exact key (.attributeError (S "items")) (by unfold loadSpec; simp only []; rw [ht, hs, hn])
      | yint n2 =>
        exact key (.typeError (S "join")) (by unfold loadSpec; simp only []; rw [ht])
      | ylist l2 =>
        exact key (.typeError (S "join")) (by unfold loadSpec; simp only []; rw [ht])
      | ymap m2 =>
        exact key (.typeError (S "join")) (by unfold loadSpec; simp only []; rw [ht])

/-- Witness: the amended C3 theorem applied to a document missing
`startfrom`. -/
theorem load_required_keys_witness :
    (∃ e, loadSpec (.ymap [(S "template", .ystr (S "tmpl"))]) = .error e)
    ∧ (ensembleRun (S "/w") (fun _ => S "/w/work")
        (.ymap [(S "template", .ystr (S "tmpl"))]) tmplFS).fs = tmplFS
    ∧ (ensembleRun (S "/w") (fun _ => S "/w/work")
        (.ymap [(S "template", .ystr (S "tmpl"))]) tmplFS).ensemble = []
    ∧ (ensembleRun (S "/w") (fun _ => S "/w/work")
        (.ymap [(S "template", .ystr (S "tmpl"))]) tmplFS).dispatches = []
    ∧ (ensembleRun (S "/w") (fun _ => S "/w/work")
        (.ymap [(S "template", .ystr (S "tmpl"))]) tmplFS).failure.isSome = true :=
  load_required_keys (.ymap [(S "template", .ystr (S "tmpl"))])
    (S "/w") (fun _ => S "/w/work") tmplFS (by decide)

/-! ## Claim C8 -/

theorem fsRename_lookup_src (fs : FS) (src dst : Str) (e : Entry)
    (h : fsLookup fs src = some e) (hne : src ≠ dst) :
    fsLookup (fsRename fs src dst) src = none := by
  unfold fsRename
  rw [h]
  rw [fsLookup_fsSet, if_neg hne]
  rw [fsLookup_fsRemove, if_pos rfl]

theorem sync_lookup_after_patch (ctx : Ctx) (fname group pname : Str) (v : Value)
    (fs : FS) (tnml : Nml) (slines : List Str)
    (hfrel : strStarts (S "/") fname = false)
    (hfsd : fname ≠ S "sync_data.sh")
    (hclx : joinPre (exppathOf ctx pname v) = exppathOf ctx pname v ++ ['/'])
    (hclt : joinPre (templatepathOf ctx) = templatepathOf ctx ++ ['/'])
    (hj : noEntriesUnder fs (exppathOf ctx pname v))
    (hsync : fsLookup fs (pyJoin (templatepathOf ctx) (S "sync_data.sh"))
      = some (.text slines)) :
    fsLookup (nmlPatchFiles (isTurningAngle fname group pname)
        (cloneTree fs (templatepathOf ctx) (exppathOf ctx pname v))
        (pyJoin (exppathOf ctx pname v) fname) tnml group pname v)
      (pyJoin (exppathOf ctx pname v) (S "sync_data.sh")) = some (.text slines) := by
  have hxf : pyJoin (exppathOf ctx pname v) fname
      = exppathOf ctx pname v ++ '/' :: fname := pyJoin_clean _ _ hclx hfrel
  have hxs : pyJoin (exppathOf ctx pname v) (S "sync_data.sh")
      = exppathOf ctx pname v ++ '/' :: S "sync_data.sh" :=
    pyJoin_clean _ _ hclx (by decide)
  have hts : pyJoin (templatepathOf ctx) (S "sync_data.sh")
      = templatepathOf ctx ++ '/' :: S "sync_data.sh" :=
    pyJoin_clean _ _ hclt (by decide)
  have hls1 : fsLookup (cloneTree fs (templatepathOf ctx) (exppathOf ctx pname v))
      (pyJoin (exppathOf ctx pname v) (S "sync_data.sh")) = some (.text slines) := by
    rw [hxs, fsLookup_cloneTree_under fs _ _ _ hj]
    rw [← hts]
    exact hsync
  have hne1 : pyJoin (exppathOf ctx pname v) (S "sync_data.sh")
      ≠ pyJoin (exppathOf ctx pname v) fname := by
    rw [hxs, hxf]
    simp
    exact fun h => hfsd h.symm
  have hne2 : pyJoin (exppathOf ctx pname v) (S "sync_data.sh")
      ≠ pyJoin (exppathOf ctx pname v) fname ++ S "_tmp" := by
    rw [hxs, hxf]
    intro h
    have h2 : S "sync_data.sh" = fname ++ S "_tmp" := by simpa using h
    have h3 := congrArg List.reverse h2
    simp [S] at h3
  have hne3 : pyJoin (exppathOf ctx pname v) (S "sync_data.sh")
      ≠ pyJoin (exppathOf ctx pname v) fname ++ S "_tmp2" := by
    rw [hxs, hxf]
    intro h
    have h2 : S "sync_data.sh" = fname ++ S "_tmp2" := by simpa using h
    have h3 := congrArg List.reverse h2
    simp [S] at h3
  rw [fsLookup_nmlPatchFiles_far _ _ _ _ _ _ _ _ hne1 hne2 hne3]
  exact hls1

/-- C8: for both invocations of the line-prefixed patch operation (the
`SYNCDIR=` field of the clone's `sync_data.sh`, lines 112-122, and the
`jobname:` field of the clone's `config.yaml`, lines 172-180), every line
starting with the prefix is replaced and every other line passes through
verbatim; the full replacement file is written to the temporary path
`<original>_tmp` and only then renamed over the original, so in the
mid-state - after the temporary file is written, before the rename - the
original file still holds its complete original content (a failure before
the rename leaves it untouched); and after the rename the original path
holds exactly the rewritten file and the temporary path is gone. -/
theorem line_prefixed_patch
    (ctx : Ctx) (fname group pname : Str) (v : Value) (sdPrev : Option Str)
    (fs : FS) (tnml : Nml) (slines : List Str)
    (hfrel : strStarts (S "/") fname = false)
    (hfsd : fname ≠ S "sync_data.sh")
    (hclx : joinPre (exppathOf ctx pname v) = exppathOf ctx pname v ++ ['/'])
    (hclt : joinPre (templatepathOf ctx) = templatepathOf ctx ++ ['/'])
    (hj : noEntriesUnder fs (exppathOf ctx pname v))
    (hsync : fsLookup fs (pyJoin (templatepathOf ctx) (S "sync_data.sh"))
      = some (.text slines)) :
    (syncRewrite (expnameOf ctx pname v) slines sdPrev).1
      = slines.map (fun l =>
          if strStarts (S "SYNCDIR=") l then
            S "SYNCDIR=" ++ pyJoin (pyDirname (l.drop 8)) (expnameOf ctx pname v)
          else l)
    ∧ fsLookup (fsSet (nmlPatchFiles (isTurningAngle fname group pname)
          (cloneTree fs (templatepathOf ctx) (exppathOf ctx pname v))
          (pyJoin (exppathOf ctx pname v) fname) tnml group pname v)
          (pyJoin (exppathOf ctx pname v) (S "sync_data.sh") ++ S "_tmp")
          (.text (syncRewrite (expnameOf ctx pname v) slines sdPrev).1))
        (pyJoin (exppathOf ctx pname v) (S "sync_data.sh"))
      = some (.text slines)
    ∧ fsLookup (fsRename (fsSet (nmlPatchFiles (isTurningAngle fname group pname)
          (cloneTree fs (templatepathOf ctx) (exppathOf ctx pname v))
          (pyJoin (exppathOf ctx pname v) fname) tnml group pname v)
          (pyJoin (exppathOf ctx pname v) (S "sync_data.sh") ++ S "_tmp")
          (.text (syncRewrite (expnameOf ctx pname v) slines sdPrev).1))
          (pyJoin (exppathOf ctx pname v) (S "sync_data.sh") ++ S "_tmp")
          (pyJoin (exppathOf ctx pname v) (S "sync_data.sh")))
        (pyJoin (exppathOf ctx pname v) (S "sync_data.sh"))
      = some (.text (syncRewrite (expnameOf ctx pname v) slines sdPrev).1)
    ∧ fsLookup (fsRename (fsSet (nmlPatchFiles (isTurningAngle fname group pname)
          (cloneTree fs (templatepathOf ctx) (exppathOf ctx pname v))
          (pyJoin (exppathOf ctx pname v) fname) tnml group pname v)
          (pyJoin (exppathOf ctx pname v) (S "sync_data.sh") ++ S "_tmp")
          (.text (syncRewrite (expnameOf ctx pname v) slines sdPrev).1))
          (pyJoin (exppathOf ctx pname v) (S "sync_data.sh") ++ S "_tmp")
          (pyJoin (exppathOf ctx pname v) (S "sync_data.sh")))
        (pyJoin (exppathOf ctx pname v) (S "sync_data.sh") ++ S "_tmp")
      = none
    ∧ (∀ (fsX : FS) (xp2 : Str) (clines : List Str) (rp sd2 : Option Str)
        (out : BuildOut),
        fsLookup fsX (pyJoin xp2 (S "config.yaml")) = some (.text clines) →
        finishVariant ctx fname group pname v (isTurningAngle fname group pname)
          xp2 rp sd2 fsX = out →
        out.result = .ok .committed →
        pyJoin xp2 (S "config.yaml") ≠ pyJoin xp2 (S "metadata.yaml") →
        childName xp2 (pyJoin xp2 (S "config.yaml")) = some (S "config.yaml") →
        jobnameRewrite pname v clines = clines.map (fun l =>
            if strStarts (S "jobname:") l then jobnameLine pname v else l)
        ∧ fsLookup (fsSet fsX (pyJoin xp2 (S "config.yaml") ++ S "_tmp")
              (.text (jobnameRewrite pname v clines)))
            (pyJoin xp2 (S "config.yaml")) = some (.text clines)
        ∧ fsLookup out.fs (pyJoin xp2 (S "config.yaml"))
          = some (.text (jobnameRewrite pname v clines))) := by
  have hls2 := sync_lookup_after_patch ctx fname group pname v fs tnml slines
    hfrel hfsd hclx hclt hj hsync
  have htmp : pyJoin (exppathOf ctx pname v) (S "sync_data.sh") ++ S "_tmp"
      ≠ pyJoin (exppathOf ctx pname v) (S "sync_data.sh") :=
    append_ne_self _ _ (by decide)
  refine ⟨syncRewrite_fst _ _ _, ?_, ?_, ?_, ?_⟩
  · rw [fsLookup_fsSet, if_neg (Ne.symm htmp)]
    exact hls2
  · apply fsRename_lookup_dst
    rw [fsLookup_fsSet, if_pos rfl]
  · apply fsRename_lookup_src _ _ _
      (.text (syncRewrite (expnameOf ctx pname v) slines sdPrev).1) _ htmp
    rw [fsLookup_fsSet, if_pos rfl]
  · intro fsX xp2 clines rp sd2 out hcl hout hcom hq3 hchild
    refine ⟨rfl, ?_, ?_⟩
    · rw [fsLookup_fsSet, if_neg (Ne.symm (append_ne_self _ _ (by decide)))]
      exact hcl
    · unfold finishVariant at hout
      simp only [] at hout
      rw [hcl] at hout
      simp only [] at hout
      split at hout
      next desc notes keywords heq2 =>
        subst hout
        have hB : fsLookup (fsRename (fsSet fsX
            (pyJoin xp2 (S "config.yaml") ++ S "_tmp")
            (.text (jobnameRewrite pname v clines)))
            (pyJoin xp2 (S "config.yaml") ++ S "_tmp") (pyJoin xp2 (S "config.yaml")))
            (pyJoin xp2 (S "config.yaml"))
            = some (.text (jobnameRewrite pname v clines)) := by
          apply fsRename_lookup_dst
          rw [fsLookup_fsSet, if_pos rfl]
        have hkeep : ∀ (l : List (Str × Entry)),
            alookup (l.filter (fun pe =>
              match childName xp2 pe.1 with
              | some n => ¬ (strStarts (S "run_summary_") n ∧ (S ".csv").isSuffixOf n)
              | none => true)) (pyJoin xp2 (S "config.yaml"))
            = alookup l (pyJoin xp2 (S "config.yaml")) := by
          intro l
          apply alookup_filter_keep
          intro a
          simp [hchild]
          decide
        show alookup _ _ = _
        rw [hkeep]
        show fsLookup (fsSet _ (pyJoin xp2 (S "metadata.yaml")) _) _ = _
        rw [fsLookup_fsSet, if_neg hq3]
        exact hB
      next heq2 =>
        rw [← hout] at hcom
        exact absurd hcom (by simp)


theorem line_prefixed_patch_witness :
    (syncRewrite (expnameOf restCtx (S "p") (.vint 2))
        [S "stuff", S "SYNCDIR=/d/sync/tmpl", S "more"] none).1
      = [S "stuff", S "SYNCDIR=/d/sync/tmpl_p_2", S "more"]
    ∧ fsLookup (fsSet c8FS (pyJoin (S "/w/tmpl_p_2") (S "config.yaml") ++ S "_tmp")
          (.text (jobnameRewrite (S "p") (.vint 2) [S "jobname: tmpl", S "x: 1"])))
        (pyJoin (S "/w/tmpl_p_2") (S "config.yaml"))
      = some (.text [S "jobname: tmpl", S "x: 1"])
    ∧ fsLookup (finishVariant restCtx (S "atm.nml") (S "g") (S "p") (.vint 2)
          (isTurningAngle (S "atm.nml") (S "g") (S "p")) (S "/w/tmpl_p_2")
          none none c8FS).fs
        (pyJoin (S "/w/tmpl_p_2") (S "config.yaml"))
      = some (.text (jobnameRewrite (S "p") (.vint 2)
          [S "jobname: tmpl", S "x: 1"])) := by
  have h := line_prefixed_patch restCtx (S "atm.nml") (S "g") (S "p") (.vint 2) none
    tmplFS [(S "g", [(S "p", .vint 1)])] [S "stuff", S "SYNCDIR=/d/sync/tmpl", S "more"]
    (by decide) (by decide) (by decide) (by decide)
    (by unfold noEntriesUnder; decide) (by rfl)
  have h5 := h.2.2.2.2 c8FS (S "/w/tmpl_p_2") [S "jobname: tmpl", S "x: 1"] none none
    (finishVariant restCtx (S "atm.nml") (S "g") (S "p") (.vint 2)
      (isTurningAngle (S "atm.nml") (S "g") (S "p")) (S "/w/tmpl_p_2") none none c8FS)
    (by rfl) rfl (by rfl) (by decide) (by decide)
  exact ⟨h.1.trans (by rfl), h5.2.1, h5.2.2⟩

/-! ## Claim C10: helper lemmas -/

theorem strStarts_cancel (a b c : Str) :
    strStarts (a ++ b) (a ++ c) = strStarts b c := by
  by_cases h : strStarts b c = true
  · rw [h]
    rw [strStarts_iff] at h ⊢
    exact (List.prefix_append_right_inj a).mpr h
  · have h1 : strStarts b c = false := by simpa using h
    rw [h1]
    by_cases h2 : strStarts (a ++ b) (a ++ c) = true
    · exfalso
      rw [strStarts_iff] at h2
      exact h ((strStarts_iff _ _).mpr ((List.prefix_append_right_inj a).mp h2))
    · simpa using h2

theorem strStarts_of_append_left (a b s : Str)
    (h : strStarts (a ++ b) s = true) : strStarts a s = true := by
  rw [strStarts_iff] at h ⊢
  exact (List.prefix_append a b).trans h

theorem strStarts_drop (u s : Str) (h : strStarts u s = true) :
    s = u ++ s.drop u.length := by
  rw [strStarts_iff] at h
  obtain ⟨t, ht⟩ := h
  subst ht
  rw [List.drop_left]

theorem childName_some_inv (d p n : Str) (h : childName d p = some n) :
    strStarts (d ++ S "/") p = true ∧ p.drop (d.length + 1) = n
      ∧ n ≠ [] ∧ n.contains '/' = false := by
  unfold childName at h
  split at h
  next hpre =>
    simp only [] at h
    split at h
    next hcond =>
      injection h with h1
      subst h1
      refine ⟨hpre, rfl, hcond.1, ?_⟩
      simpa using hcond.2
    next hcond =>
      exact absurd h (by simp)
  next hpre =>
    exact absurd h (by simp)

theorem childName_arch_none (xp s : Str)
    (hs : strStarts (S "archive/") s = false) :
    childName (xp ++ '/' :: S "archive") (xp ++ '/' :: s) = none := by
  apply childName_none_of_far
  have h1 : (xp ++ '/' :: S "archive") ++ S "/" = (xp ++ ['/']) ++ S "archive/" := by
    simp [S]
  have h2 : xp ++ '/' :: s = (xp ++ ['/']) ++ s := by simp
  rw [h1, h2, strStarts_cancel]
  exact hs

theorem noSlash_of_digits (sf : Str) (hd : sf.all Char.isDigit = true) :
    sf.contains '/' = false := by
  rw [List.all_eq_true] at hd
  by_cases h : sf.contains '/' = true
  · exfalso
    have hm : '/' ∈ sf := by
      simpa [List.contains, List.elem_iff] using h
    have := hd '/' hm
    simp at this
  · simpa using h

theorem matchesOutputPat_output (sf : Str) (h3 : 3 ≤ sf.length)
    (hd : sf.all Char.isDigit = true) :
    matchesOutputPat (S "output" ++ sf) = true := by
  unfold matchesOutputPat
  have h1 : strStarts (S "output") (S "output" ++ sf) = true := strStarts_append _ _
  have h2 : (S "output" ++ sf).drop 6 = sf := by
    have h6 : (6 : Nat) = (S "output").length := rfl
    rw [h6, List.drop_left]
  simp only [h1, h2, true_and]
  simp only [decide_eq_true_eq]
  refine ⟨h3, ?_⟩
  rw [List.all_eq_true] at hd ⊢
  intro c hc
  exact hd c (List.mem_of_mem_take hc)

theorem alookup_some_mem {α : Type} (l : List (Str × α)) (k : Str) (v : α)
    (h : alookup l k = some v) : ∃ pe ∈ l, pe.1 = k := by
  induction l with
  | nil => exact absurd h (by simp [alookup])
  | cons kv rest ih =>
    unfold alookup at h
    split at h
    next he => exact ⟨kv, List.mem_cons_self _ _, he⟩
    next he =>
      obtain ⟨pe, hpe, hk⟩ := ih h
      exact ⟨pe, List.mem_cons_of_mem _ hpe, hk⟩

theorem countOutputs_pos (fs : FS) (xp q n : Str) (e : Entry)
    (hq : fsLookup fs q = some e)
    (hc : childName (pyJoin xp (S "archive")) q = some n)
    (hm : matchesOutputPat n = true) : 1 ≤ countOutputs fs xp := by
  obtain ⟨pe, hpe, hpq⟩ := alookup_some_mem fs.entries q e hq
  have hn : n ∈ fsChildren fs (pyJoin xp (S "archive")) := by
    unfold fsChildren
    rw [List.mem_filterMap]
    exact ⟨pe, hpe, by rw [hpq]; exact hc⟩
  have hmem : n ∈ (fsChildren fs (pyJoin xp (S "archive"))).filter matchesOutputPat :=
    List.mem_filter.mpr ⟨hn, hm⟩
  unfold countOutputs
  exact List.length_pos.mpr (List.ne_nil_of_mem hmem)

theorem reconcile_mem_eq (fs : FS) (nruns : Int) (l : List Str) (p : Str) (m : Int)
    (h : (p, m) ∈ reconcile fs nruns l) :
    m = nruns - ((countOutputs fs p : Int) - 1) ∧ 0 < m := by
  induction l with
  | nil => exact absurd h (by simp [reconcile])
  | cons q rest ih =>
    unfold reconcile at h
    rw [List.mem_append] at h
    rcases h with h | h
    · by_cases hc : 0 < nruns - ((countOutputs fs q : Int) - 1)
      · rw [if_pos hc] at h
        simp at h
        obtain ⟨h1, h2⟩ := h
        subst h1
        subst h2
        exact ⟨rfl, hc⟩
      · rw [if_neg hc] at h
        simp at h
    · exact ih h

theorem mem_fsSet_entries (fs : FS) (p : Str) (e : Entry) (pe : Str × Entry)
    (h : pe ∈ (fsSet fs p e).entries) : pe.1 = p ∨ pe ∈ fs.entries := by
  unfold fsSet at h
  rcases List.mem_cons.mp h with h | h
  · left; rw [h]
  · right; exact (List.mem_filter.mp h).1

theorem mem_fsRename_entries (fs : FS) (src dst : Str) (pe : Str × Entry)
    (h : pe ∈ (fsRename fs src dst).entries) : pe.1 = dst ∨ pe ∈ fs.entries := by
  unfold fsRename at h
  split at h
  next e he =>
    rcases mem_fsSet_entries _ _ _ _ h with h | h
    · left; exact h
    · right
      unfold fsRemove at h
      exact (List.mem_filter.mp h).1
  next he => right; exact h

theorem mem_nmlPatchFiles_entries (t : Bool) (fs : FS) (fpath : Str) (orig : Nml)
    (group pname : Str) (v : Value) (pe : Str × Entry)
    (h : pe ∈ (nmlPatchFiles t fs fpath orig group pname v).entries) :
    pe.1 = fpath ∨ pe.1 = fpath ++ S "_tmp" ∨ pe.1 = fpath ++ S "_tmp2"
      ∨ pe ∈ fs.entries := by
  unfold nmlPatchFiles at h
  split at h
  · rcases mem_fsRename_entries _ _ _ _ h with h | h
    · left; exact h
    unfold fsRemove at h
    have h := (List.mem_filter.mp h).1
    rcases mem_fsSet_entries _ _ _ _ h with h | h
    · right; left; exact h
    rcases mem_fsSet_entries _ _ _ _ h with h | h
    · right; right; left; exact h
    · right; right; right; exact h
  · rcases mem_fsRename_entries _ _ _ _ h with h | h
    · left; exact h
    rcases mem_fsSet_entries _ _ _ _ h with h | h
    · right; left; exact h
    · right; right; right; exact h

theorem mem_cloneTree_entries (fs : FS) (src dst : Str) (pe : Str × Entry)
    (h : pe ∈ (cloneTree fs src dst).entries) :
    pe.1 = dst
    ∨ (∃ qe ∈ fs.entries, strStarts (src ++ S "/") qe.1 = true
        ∧ pe.1 = dst ++ S "/" ++ qe.1.drop (src.length + 1))
    ∨ pe ∈ fs.entries := by
  unfold cloneTree at h
  simp only [] at h
  rcases List.mem_cons.mp h with h | h
  · left; rw [h]
  rcases List.mem_append.mp h with h | h
  · right; left
    rw [List.mem_filterMap] at h
    obtain ⟨qe, hqe, hq⟩ := h
    by_cases hs : strStarts (src ++ S "/") qe.1 = true
    · rw [if_pos hs] at hq
      injection hq with hq
      exact ⟨qe, hqe, hs, by rw [← hq]⟩
    · rw [if_neg hs] at hq
      exact absurd hq (by simp)
  · right; right; exact (List.mem_filter.mp h).1

theorem restartPhase_done_outdir (ctx : Ctx) (fs : FS) (xp : Str) (fsD : FS) (rp : Str)
    (hout : restartPhase ctx fs xp = .done fsD rp) :
    fsExists fsD (pyJoin xp (pyJoin (S "archive") (S "output" ++ ctx.startfrom)))
      = true := by
  unfold restartPhase at hout
  simp only [] at hout
  all_goals try split at hout
  all_goals try split at hout
  all_goals try split at hout
  all_goals try split at hout
  all_goals try split at hout
  all_goals try (exfalso; exact RestartResult.noConfusion hout)
  all_goals injection hout with h1 h2
  all_goals subst h1
  all_goals apply fsExists_fsSet_mono
  all_goals apply fsExists_fsSet_mono
  all_goals first
    | assumption
    | (rw [fsExists_fsSet]; simp)

theorem countOutputs_zero_final (ctx : Ctx) (fname group pname : Str) (v : Value)
    (tng : Bool) (rp : Option Str) (sd : Option Str) (fs : FS) (tnml : Nml)
    (econt : Entry) (out : BuildOut)
    (hclx : joinPre (exppathOf ctx pname v) = exppathOf ctx pname v ++ ['/'])
    (hclt : joinPre (templatepathOf ctx) = templatepathOf ctx ++ ['/'])
    (hj : noEntriesUnder fs (exppathOf ctx pname v))
    (hfrel : strStarts (S "/") fname = false)
    (hfa : strStarts (S "archive/") fname = false)
    (hfat : strStarts (S "archive/") (fname ++ S "_tmp") = false)
    (hfat2 : strStarts (S "archive/") (fname ++ S "_tmp2") = false)
    (hta : countOutputs fs (templatepathOf ctx) = 0)
    (hout : finishVariant ctx fname group pname v tng (exppathOf ctx pname v) rp sd
      (fsRename (fsSet (nmlPatchFiles tng
          (cloneTree fs (templatepathOf ctx) (exppathOf ctx pname v))
          (pyJoin (exppathOf ctx pname v) fname) tnml group pname v)
        (pyJoin (exppathOf ctx pname v) (S "sync_data.sh") ++ S "_tmp") econt)
        (pyJoin (exppathOf ctx pname v) (S "sync_data.sh") ++ S "_tmp")
        (pyJoin (exppathOf ctx pname v) (S "sync_data.sh"))) = out)
    (hcom : out.result = .ok .committed) :
    countOutputs out.fs (exppathOf ctx pname v) = 0 := by
  have hxa : pyJoin (exppathOf ctx pname v) (S "archive")
      = exppathOf ctx pname v ++ '/' :: S "archive" := pyJoin_clean _ _ hclx (by decide)
  have hxc : pyJoin (exppathOf ctx pname v) (S "config.yaml")
      = exppathOf ctx pname v ++ '/' :: S "config.yaml" := pyJoin_clean _ _ hclx (by decide)
  have hxm : pyJoin (exppathOf ctx pname v) (S "metadata.yaml")
      = exppathOf ctx pname v ++ '/' :: S "metadata.yaml" := pyJoin_clean _ _ hclx (by decide)
  have hxs : pyJoin (exppathOf ctx pname v) (S "sync_data.sh")
      = exppathOf ctx pname v ++ '/' :: S "sync_data.sh" := pyJoin_clean _ _ hclx (by decide)
  have hxf : pyJoin (exppathOf ctx pname v) fname
      = exppathOf ctx pname v ++ '/' :: fname := pyJoin_clean _ _ hclx hfrel
  have hxct : pyJoin (exppathOf ctx pname v) (S "config.yaml") ++ S "_tmp"
      = exppathOf ctx pname v ++ '/' :: (S "config.yaml" ++ S "_tmp") := by
    rw [hxc]; simp
  have hxst : pyJoin (exppathOf ctx pname v) (S "sync_data.sh") ++ S "_tmp"
      = exppathOf ctx pname v ++ '/' :: (S "sync_data.sh" ++ S "_tmp") := by
    rw [hxs]; simp
  have hxft : pyJoin (exppathOf ctx pname v) fname ++ S "_tmp"
      = exppathOf ctx pname v ++ '/' :: (fname ++ S "_tmp") := by
    rw [hxf]; simp
  have hxft2 : pyJoin (exppathOf ctx pname v) fname ++ S "_tmp2"
      = exppathOf ctx pname v ++ '/' :: (fname ++ S "_tmp2") := by
    rw [hxf]; simp
  have hxta : pyJoin (templatepathOf ctx) (S "archive")
      = templatepathOf ctx ++ '/' :: S "archive" := pyJoin_clean _ _ hclt (by decide)
  unfold finishVariant at hout
  simp only [] at hout
  split at hout
  next clines heq =>
    split at hout
    next desc notes keywords heq2 =>
      subst hout
      unfold countOutputs
      rw [hxa]
      apply List.length_eq_zero.mpr
      rw [List.filter_eq_nil_iff]
      intro n hn
      unfold fsChildren at hn
      rw [List.mem_filterMap] at hn
      obtain ⟨pe, hpe, hcn⟩ := hn
      suffices hmf : matchesOutputPat n = false by simp [hmf]
      have hpe1 := (List.mem_filter.mp hpe).1
      rcases mem_fsSet_entries _ _ _ _ hpe1 with hEq | hpe2
      · rw [hEq, hxm, childName_arch_none _ _ (by decide)] at hcn
        exact absurd hcn (by simp)
      rcases mem_fsRename_entries _ _ _ _ hpe2 with hEq | hpe3
      · rw [hEq, hxc, childName_arch_none _ _ (by decide)] at hcn
        exact absurd hcn (by simp)
      rcases mem_fsSet_entries _ _ _ _ hpe3 with hEq | hpe4
      · rw [hEq, hxct, childName_arch_none _ _ (by decide)] at hcn
        exact absurd hcn (by simp)
      rcases mem_fsRename_entries _ _ _ _ hpe4 with hEq | hpe5
      · rw [hEq, hxs, childName_arch_none _ _ (by decide)] at hcn
        exact absurd hcn (by simp)
      rcases mem_fsSet_entries _ _ _ _ hpe5 with hEq | hpe6
      · rw [hEq, hxst, childName_arch_none _ _ (by decide)] at hcn
        exact absurd hcn (by simp)
      rcases mem_nmlPatchFiles_entries _ _ _ _ _ _ _ _ hpe6 with hEq | hEq | hEq | hpe7
      · rw [hEq, hxf, childName_arch_none _ _ hfa] at hcn
        exact absurd hcn (by simp)
      · rw [hEq, hxft, childName_arch_none _ _ hfat] at hcn
        exact absurd hcn (by simp)
      · rw [hEq, hxft2, childName_arch_none _ _ hfat2] at hcn
        exact absurd hcn (by simp)
      rcases mem_cloneTree_entries _ _ _ _ hpe7 with hEq | ⟨qe, hqe, hqs, hqd⟩ | hpe8
      · rw [hEq] at hcn
        have hnone : childName (exppathOf ctx pname v ++ '/' :: S "archive")
            (exppathOf ctx pname v) = none := by
          apply childName_none_of_far
          have h1 : (exppathOf ctx pname v ++ '/' :: S "archive") ++ S "/"
              = exppathOf ctx pname v ++ ('/' :: (S "archive" ++ S "/")) := by simp
          rw [h1]
          exact strStarts_append_self_false _ _ (by simp)
        rw [hnone] at hcn
        exact absurd hcn (by simp)
      · rw [hqd] at hcn
        obtain ⟨hpre, hdrop, hne0, hnc⟩ := childName_some_inv _ _ _ hcn
        have hra : strStarts (S "archive/")
            (qe.1.drop ((templatepathOf ctx).length + 1)) = true := by
          have h1 : (exppathOf ctx pname v ++ '/' :: S "archive") ++ S "/"
              = (exppathOf ctx pname v ++ S "/") ++ S "archive/" := by simp [S]
          have h2 : exppathOf ctx pname v ++ S "/"
                ++ qe.1.drop ((templatepathOf ctx).length + 1)
              = (exppathOf ctx pname v ++ S "/")
                ++ qe.1.drop ((templatepathOf ctx).length + 1) := by simp
          rw [h1, h2, strStarts_cancel] at hpre
          exact hpre
        obtain ⟨r1, hr1⟩ : ∃ r1, qe.1.drop ((templatepathOf ctx).length + 1)
            = S "archive/" ++ r1 := ⟨_, strStarts_drop _ _ hra⟩
        rw [hr1] at hcn
        have heq3 : exppathOf ctx pname v ++ S "/" ++ (S "archive/" ++ r1)
            = (exppathOf ctx pname v ++ '/' :: S "archive") ++ '/' :: r1 := by simp [S]
        rw [heq3, childName_of_append] at hcn
        split at hcn
        next hcond =>
          injection hcn with hcn1
          subst hcn1
          have hq1 : qe.1 = (templatepathOf ctx ++ S "/")
              ++ qe.1.drop ((templatepathOf ctx).length + 1) := by
            have h := strStarts_drop (templatepathOf ctx ++ S "/") qe.1 hqs
            simpa [S] using h
          rw [hr1] at hq1
          have hq2 : qe.1 = (templatepathOf ctx ++ '/' :: S "archive") ++ '/' :: r1 := by
            rw [hq1]; simp [S]
          have hcq : childName (templatepathOf ctx ++ '/' :: S "archive") qe.1
              = some r1 := by
            rw [hq2, childName_of_append, if_pos hcond]
          have hmem : r1 ∈ fsChildren fs (pyJoin (templatepathOf ctx) (S "archive")) := by
            unfold fsChildren
            rw [List.mem_filterMap]
            exact ⟨qe, hqe, by rw [hxta]; exact hcq⟩
          unfold countOutputs at hta
          have hnil := List.length_eq_zero.mp hta
          have hall := List.filter_eq_nil_iff.mp hnil
          have hres := hall r1 hmem
          simpa using hres
        next hcond =>
          exact absurd hcn (by simp)
      · have hfar : strStarts ((exppathOf ctx pname v ++ '/' :: S "archive") ++ S "/")
            pe.1 = false := by
          have h1 : (exppathOf ctx pname v ++ '/' :: S "archive") ++ S "/"
              = (exppathOf ctx pname v ++ S "/") ++ (S "archive" ++ S "/") := by simp [S]
          rw [h1]
          by_cases hh : strStarts ((exppathOf ctx pname v ++ S "/")
              ++ (S "archive" ++ S "/")) pe.1 = true
          · exfalso
            have h2 := strStarts_of_append_left _ _ _ hh
            rw [hj pe hpe8] at h2
            exact Bool.noConfusion h2
          · simpa using hh
        rw [childName_none_of_far _ _ hfar] at hcn
        exact absurd hcn (by simp)
    next heq2 =>
      rw [← hout] at hcom
      exact absurd hcom (by simp)
  next heq =>
    rw [← hout] at hcom
    exact absurd hcom (by simp)

theorem strStarts_slash_head (c : Char) (l : Str) (h : ¬ c = '/') :
    strStarts (S "/") (c :: l) = false := by
  simp [strStarts, S, List.isPrefixOf]
  exact fun he => h he.symm

theorem contains_eq_false_of_not_mem (l : Str) (c : Char) (h : ¬ c ∈ l) :
    l.contains c = false := by
  by_cases hc : l.contains c = true
  · exact absurd (by simpa [List.contains, List.elem_iff] using hc) h
  · simpa using hc

theorem contains_eq_true_of_mem (l : Str) (c : Char) (h : c ∈ l) :
    l.contains c = true := by
  simpa [List.contains, List.elem_iff] using h

/-- C10: a committed variant built with startfrom different from `rest`
(three-digit, as `zfill(3)` of line 58 guarantees) carries the directory
`archive/output<startfrom>` created by the build itself, so reconciliation
sees at least one output-pattern match, `doneruns >= 0`, and every
dispatched run request is for at most `nruns` cycles; a committed variant
built with startfrom equal to `rest` (template archive clean of
output-pattern children) has zero output-pattern matches, so
`doneruns = -1` and, whenever `nruns > 0`, the reconciler dispatches
exactly `nruns + 1` cycles for it - one more run than configured. -/
theorem startfrom_run_count
    (ctx : Ctx) (fname group pname : Str) (v : Value) (sdPrev : Option Str)
    (fs : FS) (tnml : Nml) (slines : List Str) (out : BuildOut)
    (hfrel : strStarts (S "/") fname = false)
    (hfsd : fname ≠ S "sync_data.sh")
    (hclx : joinPre (exppathOf ctx pname v) = exppathOf ctx pname v ++ ['/'])
    (hclt : joinPre (templatepathOf ctx) = templatepathOf ctx ++ ['/'])
    (hne : fsExists fs (exppathOf ctx pname v) = false)
    (hj : noEntriesUnder fs (exppathOf ctx pname v))
    (ht : fsLookup fs (pyJoin (templatepathOf ctx) fname) = some (.nml tnml))
    (hskip : skipCheck tnml (isTurningAngle fname group pname) group pname v = .ok false)
    (hdirty : patchedNml (isTurningAngle fname group pname) tnml group pname v ≠ tnml)
    (hsync : fsLookup fs (pyJoin (templatepathOf ctx) (S "sync_data.sh"))
      = some (.text slines))
    (hfa : strStarts (S "archive/") fname = false)
    (hfat : strStarts (S "archive/") (fname ++ S "_tmp") = false)
    (hfat2 : strStarts (S "archive/") (fname ++ S "_tmp2") = false)
    (hta : countOutputs fs (templatepathOf ctx) = 0)
    (hout : buildVariant ctx fname group pname v sdPrev fs = out)
    (hcom : out.result = .ok .committed) :
    (ctx.startfrom ≠ S "rest" →
      3 ≤ ctx.startfrom.length →
      ctx.startfrom.all Char.isDigit = true →
      1 ≤ countOutputs out.fs (exppathOf ctx pname v)
      ∧ ∀ (nruns m : Int),
          (exppathOf ctx pname v, m) ∈ reconcileAll out.fs nruns [exppathOf ctx pname v]
          → m ≤ nruns)
    ∧ (ctx.startfrom = S "rest" →
      countOutputs out.fs (exppathOf ctx pname v) = 0
      ∧ ∀ nruns : Int, 0 < nruns →
          reconcileAll out.fs nruns [exppathOf ctx pname v]
            = [(exppathOf ctx pname v, nruns + 1)]) := by
  have hred := buildVariant_reach_sync ctx fname group pname v sdPrev fs tnml slines
    hfrel hfsd hclx hclt hne hj ht hskip hdirty hsync
  have hxa : pyJoin (exppathOf ctx pname v) (S "archive")
      = exppathOf ctx pname v ++ '/' :: S "archive" := pyJoin_clean _ _ hclx (by decide)
  have hxc : pyJoin (exppathOf ctx pname v) (S "config.yaml")
      = exppathOf ctx pname v ++ '/' :: S "config.yaml" := pyJoin_clean _ _ hclx (by decide)
  have hxm : pyJoin (exppathOf ctx pname v) (S "metadata.yaml")
      = exppathOf ctx pname v ++ '/' :: S "metadata.yaml" := pyJoin_clean _ _ hclx (by decide)
  rw [hred] at hout
  simp only [] at hout
  cases hsw : (syncRewrite (expnameOf ctx pname v) slines sdPrev).2 with
  | none =>
    rw [hsw] at hout
    simp only [] at hout
    rw [← hout] at hcom
    exact absurd hcom (by simp)
  | some d =>
    rw [hsw] at hout
    simp only [] at hout
    split at hout
    next hex =>
      rw [← hout] at hcom
      exact absurd hcom (by simp)
    next hex =>
      constructor
      · intro hsfr h3 hd
        rw [if_pos hsfr] at hout
        split at hout
        next fsA heq =>
          rw [← hout] at hcom
          exact absurd hcom (by simp)
        next e0 fsX heq =>
          rw [← hout] at hcom
          exact absurd hcom (by simp)
        next fsD2 rp2 heq =>
          have hexod := restartPhase_done_outdir ctx _ _ _ _ heq
          have hsf0 : S "output" ++ ctx.startfrom = 'o' :: (S "utput" ++ ctx.startfrom) := by
            simp [S]
          have hrel1 : strStarts (S "/") (S "output" ++ ctx.startfrom) = false := by
            rw [hsf0]
            exact strStarts_slash_head _ _ (by decide)
          have houtd : pyJoin (S "archive") (S "output" ++ ctx.startfrom)
              = S "archive/" ++ (S "output" ++ ctx.startfrom) := by
            rw [pyJoin_rel _ _ hrel1]
            have : joinPre (S "archive") = S "archive/" := by decide
            rw [this]
          have hrel2 : strStarts (S "/")
              (S "archive/" ++ (S "output" ++ ctx.startfrom)) = false := by
            have h0 : S "archive/" ++ (S "output" ++ ctx.startfrom)
                = 'a' :: (S "rchive/" ++ (S "output" ++ ctx.startfrom)) := by simp [S]
            rw [h0]
            exact strStarts_slash_head _ _ (by decide)
          have hoabs : pyJoin (exppathOf ctx pname v)
                (pyJoin (S "archive") (S "output" ++ ctx.startfrom))
              = (exppathOf ctx pname v ++ '/' :: S "archive")
                ++ '/' :: (S "output" ++ ctx.startfrom) := by
            rw [houtd, pyJoin_clean _ _ hclx hrel2]
            simp [S]
          have hsfnc : (S "output" ++ ctx.startfrom).contains '/' = false := by
            apply contains_eq_false_of_not_mem
            rw [List.mem_append]
            rintro (hm | hm)
            · simp [S] at hm
            · have := (List.all_eq_true.mp hd) '/' hm
              simp at this
          have hcn : childName (pyJoin (exppathOf ctx pname v) (S "archive"))
              (pyJoin (exppathOf ctx pname v)
                (pyJoin (S "archive") (S "output" ++ ctx.startfrom)))
              = some (S "output" ++ ctx.startfrom) := by
            rw [hxa, hoabs, childName_of_append, if_pos]
            constructor
            · simp [S]
            · intro hcc
              rw [hsfnc] at hcc
              exact Bool.noConfusion hcc
          have he0 := hexod
          unfold fsExists at he0
          obtain ⟨e, he⟩ := Option.isSome_iff_exists.mp he0
          have hq1 : pyJoin (exppathOf ctx pname v)
                (pyJoin (S "archive") (S "output" ++ ctx.startfrom))
              ≠ pyJoin (exppathOf ctx pname v) (S "config.yaml") := by
            rw [hoabs, hxc]
            intro hcontra
            have h2 : S "archive" ++ '/' :: (S "output" ++ ctx.startfrom)
                = S "config.yaml" := by
              simpa using hcontra
            simp [S] at h2
          have hq2 : pyJoin (exppathOf ctx pname v)
                (pyJoin (S "archive") (S "output" ++ ctx.startfrom))
              ≠ pyJoin (exppathOf ctx pname v) (S "config.yaml") ++ S "_tmp" := by
            rw [hoabs, hxc]
            intro hcontra
            have h2 : S "archive" ++ '/' :: (S "output" ++ ctx.startfrom)
                = S "config.yaml" ++ S "_tmp" := by
              simpa using hcontra
            simp [S] at h2
          have hq3 : pyJoin (exppathOf ctx pname v)
                (pyJoin (S "archive") (S "output" ++ ctx.startfrom))
              ≠ pyJoin (exppathOf ctx pname v) (S "metadata.yaml") := by
            rw [hoabs, hxm]
            intro hcontra
            have h2 : S "archive" ++ '/' :: (S "output" ++ ctx.startfrom)
                = S "metadata.yaml" := by
              simpa using hcontra
            simp [S] at h2
          have hq4 : childName (exppathOf ctx pname v)
                (pyJoin (exppathOf ctx pname v)
                  (pyJoin (S "archive") (S "output" ++ ctx.startfrom))) = none ∨
              ∃ n, childName (exppathOf ctx pname v)
                  (pyJoin (exppathOf ctx pname v)
                    (pyJoin (S "archive") (S "output" ++ ctx.startfrom))) = some n
                ∧ strStarts (S "run_summary_") n = false := by
            left
            have hoabs2 : pyJoin (exppathOf ctx pname v)
                  (pyJoin (S "archive") (S "output" ++ ctx.startfrom))
                = exppathOf ctx pname v
                  ++ '/' :: (S "archive" ++ '/' :: (S "output" ++ ctx.startfrom)) := by
              rw [hoabs]
              simp
            rw [hoabs2, childName_of_append, if_neg]
            intro hcond
            have hcc : (S "archive" ++ '/' :: (S "output" ++ ctx.startfrom)).contains '/'
                = true := by
              apply contains_eq_true_of_mem
              rw [List.mem_append]
              right
              exact List.mem_cons_self _ _
            rw [hcc] at hcond
            simp at hcond
          have hfin := finishVariant_far_lookup ctx fname group pname v
            (isTurningAngle fname group pname) (exppathOf ctx pname v) (some rp2)
            (some d) fsD2
            (pyJoin (exppathOf ctx pname v)
              (pyJoin (S "archive") (S "output" ++ ctx.startfrom)))
            out hq1 hq2 hq3 hq4 hout hcom
          have hlook : fsLookup out.fs
              (pyJoin (exppathOf ctx pname v)
                (pyJoin (S "archive") (S "output" ++ ctx.startfrom))) = some e := by
            rw [hfin]
            exact he
          have hcount := countOutputs_pos out.fs (exppathOf ctx pname v) _ _ e
            hlook hcn (matchesOutputPat_output _ h3 hd)
          refine ⟨hcount, ?_⟩
          intro nruns m hm
          unfold reconcileAll at hm
          split at hm
          next hpos =>
            obtain ⟨hm1, hm2⟩ := reconcile_mem_eq _ _ _ _ _ hm
            have hc1 : (1 : Int) ≤ (countOutputs out.fs (exppathOf ctx pname v) : Int) := by
              exact_mod_cast hcount
            omega
          next hpos =>
            exact absurd hm (by simp)
      · intro hsfe
        rw [if_neg (by simp [hsfe])] at hout
        have hz := countOutputs_zero_final ctx fname group pname v
          (isTurningAngle fname group pname) none (some d) fs tnml
          (.text (syncRewrite (expnameOf ctx pname v) slines sdPrev).1) out
          hclx hclt hj hfrel hfa hfat hfat2 hta hout hcom
        refine ⟨hz, ?_⟩
        intro nruns hn
        unfold reconcileAll
        rw [if_pos hn]
        unfold reconcile
        rw [hz]
        simp only [reconcile]
        have hvv : nruns - (((0 : Nat) : Int) - 1) = nruns + 1 := by omega
        rw [hvv, if_pos (by omega)]
        simp



theorem startfrom_run_count_witness :
    1 ≤ countOutputs (buildVariant runCtx (S "atm.nml") (S "g") (S "p") (.vint 2)
        none c10FS).fs (exppathOf runCtx (S "p") (.vint 2))
    ∧ countOutputs (buildVariant restCtx (S "atm.nml") (S "g") (S "p") (.vint 2)
        none c10FS).fs (exppathOf restCtx (S "p") (.vint 2)) = 0
    ∧ reconcileAll (buildVariant restCtx (S "atm.nml") (S "g") (S "p") (.vint 2)
          none c10FS).fs 3 [exppathOf restCtx (S "p") (.vint 2)]
      = [(exppathOf restCtx (S "p") (.vint 2), 4)] := by
  have hA := (startfrom_run_count runCtx (S "atm.nml") (S "g") (S "p") (.vint 2) none
    c10FS [(S "g", [(S "p", .vint 1)])] [S "stuff", S "SYNCDIR=/d/sync/tmpl", S "more"]
    (buildVariant runCtx (S "atm.nml") (S "g") (S "p") (.vint 2) none c10FS)
    (by decide) (by decide) (by decide) (by decide) (by decide)
    (by unfold noEntriesUnder; decide)
    (by decide) (by rfl) (by decide) (by decide)
    (by decide) (by decide) (by decide) (by decide)
    rfl (by rfl)).1 (by decide) (by decide) (by decide)
  have hB := (startfrom_run_count restCtx (S "atm.nml") (S "g") (S "p") (.vint 2) none
    c10FS [(S "g", [(S "p", .vint 1)])] [S "stuff", S "SYNCDIR=/d/sync/tmpl", S "more"]
    (buildVariant restCtx (S "atm.nml") (S "g") (S "p") (.vint 2) none c10FS)
    (by decide) (by decide) (by decide) (by decide) (by decide)
    (by unfold noEntriesUnder; decide)
    (by decide) (by rfl) (by decide) (by decide)
    (by decide) (by decide) (by decide) (by decide)
    rfl (by rfl)).2 rfl
  exact ⟨hA.1, hB.1, hB.2 3 (by decide)⟩
